import Mathlib

/-!
Revel file watcher (`watcher.go`)

A shallow embedding of the refresh coordinator of `src/watcher.go`:
`rebuildRequired`, `NewWatcher`, `Listen`, one step of `NotifyWhenUpdated`
and `Notify`.

Modelling conventions.

* Go strings are Lean `String`s; the string functions work on the character
  list.  The only characters the code inspects are `/` and `.`, both ASCII,
  so a character-level reading agrees with Go's byte-level one.
* A buffered channel is the list of the events pending in it, oldest first.
  `Notify` and the dispatcher run without a concurrent producer: what is
  pending is what was in the channel when the call started.
* A listener's `Refresh` is an arbitrary effectful function: it reads and
  changes a state `σ` of the host application and returns `none` (Go `nil`)
  or an error of type `ε`.
* `Notify` is instrumented with a trace that lists, in the order they
  happen, every receive from a channel and every `Refresh` call.
* The mutex is not represented: the model is sequential.
-/

namespace Revel

/-! ## Go standard library: `strings.HasPrefix`, `path.Base`, `path.Dir` -/

/-- Go `strings.HasPrefix(s, pre)`. -/
def hasPrefixStr (s pre : String) : Bool :=
  pre.data.isPrefixOf s.data

/-- The loop `for len(path) > 0 && path[len(path)-1] == '/'` of `path.Base`. -/
def stripTrailingSlashes (p : List Char) : List Char :=
  (p.reverse.dropWhile (fun c => c == '/')).reverse

/-- The part of `p` after its last slash (`path[lastSlash(path)+1:]`), all of
`p` when it has no slash. -/
def afterLastSlash (p : List Char) : List Char :=
  (p.reverse.takeWhile (fun c => c != '/')).reverse

/-- The part of `p` up to and including its last slash (`path[:lastSlash(path)+1]`),
empty when it has no slash: the `dir` result of Go `path.Split`. -/
def uptoLastSlash (p : List Char) : List Char :=
  (p.reverse.dropWhile (fun c => c != '/')).reverse

/-- Go `path.Base`. -/
def pathBase (path : String) : String :=
  if path.data = [] then "."
  else
    let p := afterLastSlash (stripTrailingSlashes path.data)
    if p = [] then "/" else String.mk p

/-- The inner loop of the `..` case of Go `path.Clean`, after the first
`out.w--`: while `out.w > dotdot && out.index(out.w) != '/'`, `out.w--`. -/
def cleanBacktrack (out : List Char) (dotdot : Nat) : Nat → Nat
  | 0 => 0
  | w + 1 =>
    if dotdot < w + 1 ∧ out.get? (w + 1) ≠ some '/' then cleanBacktrack out dotdot w
    else w + 1

/-- The main loop `for r < n` of Go `path.Clean`: `rest` is `path[r:]`, `out`
the buffer written so far (`out.w` is its length).  Every round consumes at
least one character, so a fuel of `len(path)` is never exhausted. -/
def cleanLoop (rooted : Bool) : Nat → List Char → List Char → Nat → List Char
  | 0, _, out, _ => out
  | _ + 1, [], out, _ => out
  | fuel + 1, c :: cs, out, dotdot =>
    if c = '/' then
      cleanLoop rooted fuel cs out dotdot
    else if c = '.' ∧ (cs = [] ∨ cs.head? = some '/') then
      cleanLoop rooted fuel cs out dotdot
    else if c = '.' ∧ cs.head? = some '.' ∧ (cs.tail = [] ∨ cs.tail.head? = some '/') then
      if dotdot < out.length then
        cleanLoop rooted fuel cs.tail
          (out.take (cleanBacktrack out dotdot (out.length - 1))) dotdot
      else if !rooted then
        let out1 := if 0 < out.length then out ++ ['/'] else out
        let out2 := out1 ++ ['.', '.']
        cleanLoop rooted fuel cs.tail out2 out2.length
      else
        cleanLoop rooted fuel cs.tail out dotdot
    else
      let out1 :=
        if (rooted && out.length != 1) || (!rooted && out.length != 0) then out ++ ['/']
        else out
      cleanLoop rooted fuel (cs.dropWhile (fun d => d != '/'))
        (out1 ++ c :: cs.takeWhile (fun d => d != '/')) dotdot

/-- Go `path.Clean`. -/
def pathClean (path : String) : String :=
  match path.data with
  | [] => "."
  | c :: cs =>
    let rooted : Bool := c == '/'
    let out :=
      if rooted then cleanLoop rooted (c :: cs).length cs ['/'] 1
      else cleanLoop rooted (c :: cs).length (c :: cs) [] 0
    if out = [] then "." else String.mk out

/-- Go `path.Dir`: `Clean` of the directory part given by `Split`. -/
def pathDir (path : String) : String :=
  pathClean (String.mk (uptoLastSlash path.data))

/-! ## Data model -/

/-- The value `notify.EventInfo` carries that the watcher reads: `Path()`. -/
structure EventInfo where
  Path : String
  deriving DecidableEq, Repr

/-- The two extra methods of a `DiscerningListener`. -/
structure DiscerningListener where
  WatchDir : String → Bool
  WatchFile : String → Bool

/-- A `Listener`.  `Refresh` runs on the state of the host application and
returns `none` for Go `nil`.  `discerning` is the result of the type assertion
`listener.(DiscerningListener)`: `some` when the dynamic type has the two
extra methods. -/
structure Listener (σ ε : Type) where
  Refresh : σ → Option ε × σ
  discerning : Option DiscerningListener

/-- A channel made by `Listen`: the events pending in it (oldest first), the
watch points `notify.Watch` subscribed to it, and whether `Listen` started a
`NotifyWhenUpdated` goroutine on it. -/
structure Chan where
  pending : List EventInfo
  watches : List String
  dispatcher : Bool
  deriving DecidableEq, Repr

/-- The `Watcher` struct, without the mutex. -/
structure Watcher (σ ε : Type) where
  events : List Chan
  listeners : List (Listener σ ε)
  forceRefresh : Bool
  lastError : Int

/-- `NewWatcher`. -/
def NewWatcher (σ ε : Type) : Watcher σ ε :=
  { events := [], listeners := [], forceRefresh := true, lastError := -1 }

/-! ## Configuration and file system, as seen by the watcher -/

/-- Modelled from the spec: the configuration store `Config` (its source file
is not part of the sources at hand), read through a boolean and a string
lookup that answer `none` for a key that is not set. -/
structure MergedConfig where
  boolOption : String → Option Bool
  stringOption : String → Option String

/-- Modelled from the spec: `Config.BoolDefault(key, dfault)`, the value of
the key, `dfault` when unset. -/
def MergedConfig.BoolDefault (c : MergedConfig) (key : String) (dfault : Bool) : Bool :=
  (c.boolOption key).getD dfault

/-- Modelled from the spec: `Config.StringDefault(key, dfault)`, the value of
the key, `dfault` when unset. -/
def MergedConfig.StringDefault (c : MergedConfig) (key : String) (dfault : String) : String :=
  (c.stringOption key).getD dfault

/-- `Watcher.eagerRebuildEnabled`. -/
def eagerRebuildEnabled (Config : MergedConfig) : Bool :=
  Config.BoolDefault "mode.dev" true &&
    Config.BoolDefault "watch" true &&
    Config.StringDefault "watcher.mode" "normal" == "eager"

/-- What `Listen` asks of the operating system.  `Lstat p` is `none` on error
and otherwise tells whether `p` is a symbolic link; `EvalSymlinks p` is `none`
on error; `Stat p` is `none` on error and otherwise tells whether `p` is a
directory; `Watch p` tells whether `notify.Watch` on `p` returned no error. -/
structure FileSystem where
  Lstat : String → Option Bool
  EvalSymlinks : String → Option String
  Stat : String → Option Bool
  Watch : String → Bool

/-- The loop over `roots` of `Listen`: the watch points subscribed to the new
channel, or `none` when `EvalSymlinks` fails and the code panics.
`filepath.Separator` is taken to be `/`. -/
def listenRoots (fs : FileSystem) : List String → List String → Option (List String)
  | [], acc => some acc
  | p :: roots, acc =>
    let resolved : Option String :=
      match fs.Lstat p with
      | some true => fs.EvalSymlinks p
      | _ => some p
    match resolved with
    | none => none
    | some p =>
      match fs.Stat p with
      | none => listenRoots fs roots acc
      | some isDir =>
        let target := if isDir then p ++ "/" ++ "..." else p
        if fs.Watch target then listenRoots fs roots (acc ++ [target])
        else listenRoots fs roots acc

/-- `Watcher.Listen`: `none` when it panics. -/
def Listen {σ ε : Type} (Config : MergedConfig) (fs : FileSystem) (w : Watcher σ ε)
    (listener : Listener σ ε) (roots : List String) : Option (Watcher σ ε) :=
  match listenRoots fs roots [] with
  | none => none
  | some watches =>
    let eventCh : Chan :=
      { pending := [], watches := watches, dispatcher := eagerRebuildEnabled Config }
    some { w with events := w.events ++ [eventCh], listeners := w.listeners ++ [listener] }

/-- The producer side of a channel: the event source puts `ev` at the end of
channel `i`. -/
def emit {σ ε : Type} (w : Watcher σ ε) (i : Nat) (ev : EventInfo) : Watcher σ ε :=
  { w with events := w.events.modify (fun ch => { ch with pending := ch.pending ++ [ev] }) i }

/-! ## The filter rule -/

/-- `Watcher.rebuildRequired`. -/
def rebuildRequired {σ ε : Type} (ev : EventInfo) (listener : Listener σ ε) : Bool :=
  if hasPrefixStr (pathBase ev.Path) "." then false
  else
    match listener.discerning with
    | some dl =>
      if !dl.WatchDir (pathBase (pathDir ev.Path)) || !dl.WatchFile (pathBase ev.Path) then false
      else true
    | none => true

/-! ## `Notify` -/

/-- What `Notify` and the dispatcher do that an observer can see. -/
inductive Step (ε : Type) where
  | recv (i : Nat) (ev : EventInfo)
  | refresh (i : Nat) (err : Option ε)

/-- The index of the channel or listener a step concerns. -/
def Step.idx {ε : Type} : Step ε → Nat
  | .recv i _ => i
  | .refresh i _ => i

/-- The step is a `Refresh` call (of any listener, with any result). -/
def Step.isRefresh {ε : Type} : Step ε → Bool
  | .recv _ _ => false
  | .refresh _ _ => true

/-- The step is a `Refresh` call of listener `i`. -/
def Step.isRefreshOf {ε : Type} (i : Nat) : Step ε → Bool
  | .recv _ _ => false
  | .refresh j _ => j == i

/-- The step is a `Refresh` call that returned an error. -/
def Step.isFailure {ε : Type} : Step ε → Bool
  | .refresh _ (some _) => true
  | _ => false

/-- The inner loop of `Notify`, `for { select { case ev := <-eventCh: ...;
default: } break }`, on the events pending in the channel: the value of
`refresh` when the loop is left. -/
def drain {σ ε : Type} (listener : Listener σ ε) : List EventInfo → Bool → Bool
  | [], refresh => refresh
  | ev :: rest, refresh =>
    drain listener rest (if rebuildRequired ev listener then true else refresh)

/-- How the loop over `w.events` of `Notify` is left. -/
inductive LoopExit (ε : Type) where
  | completed
  | failed (i : Nat) (err : ε)
  | indexPanic

/-- The result of the loop over `w.events`. -/
structure LoopResult (σ ε : Type) where
  chans : List Chan
  s : σ
  trace : List (Step ε)
  exit : LoopExit ε

/-- The loop `for i, eventCh := range w.events` of `Notify`, from index `i`
on, `todo` being the channels from `i` on.  `chans` of the result is `todo`
after the loop. -/
def notifyLoop {σ ε : Type} (w : Watcher σ ε) : Nat → List Chan → σ → LoopResult σ ε
  | _, [], s => { chans := [], s := s, trace := [], exit := .completed }
  | i, eventCh :: todo, s =>
    match w.listeners[i]? with
    | none => { chans := eventCh :: todo, s := s, trace := [], exit := .indexPanic }
    | some listener =>
      let refresh := drain listener eventCh.pending false
      let received : List (Step ε) := eventCh.pending.map (Step.recv i)
      let drained : Chan := { eventCh with pending := [] }
      if w.forceRefresh || refresh || w.lastError == (i : Int) then
        match listener.Refresh s with
        | (some err, s1) =>
          { chans := drained :: todo, s := s1,
            trace := received ++ [Step.refresh i (some err)], exit := .failed i err }
        | (none, s1) =>
          let r := notifyLoop w (i + 1) todo s1
          { r with chans := drained :: r.chans,
                   trace := received ++ Step.refresh i none :: r.trace }
      else
        let r := notifyLoop w (i + 1) todo s
        { r with chans := drained :: r.chans, trace := received ++ r.trace }

/-- How a call ends: it returns a value, or it panics. -/
inductive Outcome (α : Type) where
  | returned (val : α)
  | panicked

/-- The result of `Notify`: the watcher and the application state after the
call, the trace of the call, and the returned `*Error` (`none` for `nil`). -/
structure NotifyResult (σ ε : Type) where
  w : Watcher σ ε
  s : σ
  trace : List (Step ε)
  ret : Outcome (Option ε)

/-- `Watcher.Notify`. -/
def Notify {σ ε : Type} (w : Watcher σ ε) (s : σ) : NotifyResult σ ε :=
  let r := notifyLoop w 0 w.events s
  match r.exit with
  | .failed i err =>
    { w := { w with events := r.chans, lastError := (i : Int) }, s := r.s,
      trace := r.trace, ret := .returned (some err) }
  | .completed =>
    { w := { w with events := r.chans, forceRefresh := false, lastError := -1 }, s := r.s,
      trace := r.trace, ret := .returned none }
  | .indexPanic =>
    { w := { w with events := r.chans }, s := r.s, trace := r.trace, ret := .panicked }

/-- The listeners whose `Refresh` a trace invokes, in order. -/
def refreshed {ε : Type} (trace : List (Step ε)) : List Nat :=
  (trace.filter Step.isRefresh).map Step.idx

/-! ## One round of `NotifyWhenUpdated` -/

/-- One round of the `for { select { case ev := <-eventCh: ... } }` loop of
`NotifyWhenUpdated(listener, eventCh)`, `eventCh` being channel `i` of the
watcher: `none` when the receive blocks (nothing is pending).  The value
`Refresh` returns is dropped, as in the code. -/
def NotifyWhenUpdatedStep {σ ε : Type} (w : Watcher σ ε) (listener : Listener σ ε) (i : Nat)
    (s : σ) : Option (Watcher σ ε × σ × List (Step ε)) :=
  match w.events[i]? with
  | none => none
  | some eventCh =>
    match eventCh.pending with
    | [] => none
    | ev :: rest =>
      let w1 : Watcher σ ε := { w with events := w.events.set i { eventCh with pending := rest } }
      if rebuildRequired ev listener then
        let res := listener.Refresh s
        some (w1, res.2, [Step.recv i ev, Step.refresh i res.1])
      else
        some (w1, s, [Step.recv i ev])

/-- The condition `w.forceRefresh || refresh || w.lastError == i` of `Notify`
for listener `listener` at index `i` whose channel holds `pending`. -/
def wantsRefresh {σ ε : Type} (w : Watcher σ ε) (i : Nat) (listener : Listener σ ε)
    (pending : List EventInfo) : Bool :=
  w.forceRefresh || drain listener pending false || w.lastError == (i : Int)


/-! ## Registration sequences and sample listeners -/

/-- Registering listeners one after the other, each with its roots, by
successive calls of `Listen`. -/
def ListenAll {σ ε : Type} (Config : MergedConfig) (fs : FileSystem) :
    Watcher σ ε → List (Listener σ ε × List String) → Option (Watcher σ ε)
  | w, [] => some w
  | w, (listener, roots) :: regs =>
    match Listen Config fs w listener roots with
    | none => none
    | some w1 => ListenAll Config fs w1 regs

/-- The watcher with the pending events of every channel replaced: the events
that arrived since the channels were last drained. -/
def withPending {σ ε : Type} (w : Watcher σ ε) (arrived : List (List EventInfo)) : Watcher σ ε :=
  { w with events := List.zipWith (fun ch evs => { ch with pending := evs }) w.events arrived }

/-- A configuration in which nothing is set. -/
def emptyConfig : MergedConfig :=
  { boolOption := fun _ => none, stringOption := fun _ => none }

/-- A file system in which every path is a directory that can be watched. -/
def plainFS : FileSystem :=
  { Lstat := fun _ => some false, EvalSymlinks := fun p => some p,
    Stat := fun _ => some true, Watch := fun _ => true }

/-- A basic listener whose `Refresh` always succeeds; the application state
counts the `Refresh` calls. -/
def okListener : Listener Nat String :=
  { Refresh := fun n => (none, n + 1), discerning := none }

/-- A basic listener whose `Refresh` always fails. -/
def brokenListener : Listener Nat String :=
  { Refresh := fun n => (some "rebuild failed", n + 1), discerning := none }

/-- A basic listener whose `Refresh` succeeds on a fresh application state
and fails afterwards. -/
def flakyListener : Listener Nat String :=
  { Refresh := fun n => (if n = 0 then none else some "compile error", n + 1),
    discerning := none }

/-- A basic listener whose `Refresh` fails exactly when the application state
is `2`. -/
def moodyListener : Listener Nat String :=
  { Refresh := fun n => (if n = 2 then some "template error" else none, n + 1),
    discerning := none }

/-- A discerning listener that watches every directory and the files whose
name ends in `.go`; its `Refresh` always succeeds. -/
def goListener : Listener Nat String :=
  { Refresh := fun n => (none, n + 1),
    discerning := some
      { WatchDir := fun _ => true, WatchFile := fun f => ".go".data.isSuffixOf f.data } }

/-- A discerning listener like `goListener` whose `Refresh` always fails. -/
def brokenGoListener : Listener Nat String :=
  { Refresh := fun n => (some "build failed", n + 1),
    discerning := some
      { WatchDir := fun _ => true, WatchFile := fun f => ".go".data.isSuffixOf f.data } }

/-- A watcher in the middle of its life: two basic listeners, an event pending
for the first, the second remembered as the last one that failed. -/
def retryingWatcher : Watcher Nat String :=
  { events := [⟨[⟨"/app/main.go"⟩], ["/app/..."], false⟩, ⟨[], ["/conf/..."], false⟩],
    listeners := [okListener, moodyListener], forceRefresh := false, lastError := 1 }

/-- The producer side of all channels at once: between two calls, the events
`arrived i` are put at the end of channel `i`, for the channels from index `i`
on. -/
def arriveFrom (arrived : Nat → List EventInfo) : Nat → List Chan → List Chan
  | _, [] => []
  | i, ch :: rest =>
    { ch with pending := ch.pending ++ arrived i } :: arriveFrom arrived (i + 1) rest

/-- The watcher after the events `arrived i` were put into channel `i`, for
every channel. -/
def arrive {σ ε : Type} (w : Watcher σ ε) (arrived : Nat → List EventInfo) : Watcher σ ε :=
  { w with events := arriveFrom arrived 0 w.events }

/-- The watcher `NewWatcher` and two calls of `Listen` give for a basic and a
discerning listener that both succeed. -/
def freshPair : Watcher Nat String :=
  { events := [⟨[], ["/app/..."], false⟩, ⟨[], ["/app/...", "/conf/..."], false⟩],
    listeners := [okListener, goListener], forceRefresh := true, lastError := -1 }

/-- A fresh watcher with two listeners and no pending event: the first
succeeds once and fails afterwards, the second always fails. -/
def freshFlaky : Watcher Nat String :=
  { events := [⟨[], ["/app/..."], false⟩, ⟨[], ["/conf/..."], false⟩],
    listeners := [flakyListener, brokenListener], forceRefresh := true, lastError := -1 }

/-- A watcher that completed a cycle before: a basic listener that succeeds
and a discerning one that fails, with a change to a `.go` file pending for the
second. -/
def settledPair : Watcher Nat String :=
  { events := [⟨[], ["/app/..."], false⟩, ⟨[⟨"/app/main.go"⟩], ["/app/..."], false⟩],
    listeners := [okListener, brokenGoListener], forceRefresh := false, lastError := -1 }

/-- A discerning listener that watches the `.go` files of directories named
`app`; its `Refresh` always succeeds. -/
def appListener : Listener Nat String :=
  { Refresh := fun n => (none, n + 1),
    discerning := some
      { WatchDir := fun d => d == "app", WatchFile := fun f => ".go".data.isSuffixOf f.data } }

/-- A basic listener whose `Refresh` fails on a fresh application state and
succeeds afterwards. -/
def recoveringListener : Listener Nat String :=
  { Refresh := fun n => (if n = 0 then some "rebuild failed" else none, n + 1),
    discerning := none }

/-- A fresh watcher with two listeners and no pending event: the first fails
once and then recovers, the second always succeeds. -/
def freshRecovering : Watcher Nat String :=
  { events := [⟨[], ["/app/..."], false⟩, ⟨[], ["/conf/..."], false⟩],
    listeners := [recoveringListener, okListener], forceRefresh := true, lastError := -1 }

/-- A watcher that completed a cycle before, with one basic listener that
always fails and a relevant event pending for it. -/
def settledBroken : Watcher Nat String :=
  { events := [⟨[⟨"/app/main.go"⟩], ["/app/..."], true⟩],
    listeners := [brokenListener], forceRefresh := false, lastError := -1 }

/-- A configuration in which only `watcher.mode` is set, to `eager`. -/
def eagerConfig : MergedConfig :=
  { boolOption := fun _ => none,
    stringOption := fun key => if key = "watcher.mode" then some "eager" else none }

/-- A file system in which no path can be inspected: `Lstat` and `Stat` fail
for every path. -/
def deadFS : FileSystem :=
  { Lstat := fun _ => none, EvalSymlinks := fun _ => none,
    Stat := fun _ => none, Watch := fun _ => false }

/-! ## Events received and events pending -/

/-- The events a trace takes from the channels, each with the index of its
channel, in the order they are received. -/
def received {ε : Type} : List (Step ε) → List (Nat × EventInfo)
  | [] => []
  | .recv i ev :: rest => (i, ev) :: received rest
  | .refresh _ _ :: rest => received rest

/-- The events pending in the channels `chans`, the first of which has index
`i`: each with the index of its channel, channel after channel, oldest first. -/
def pendingFrom (i : Nat) : List Chan → List (Nat × EventInfo)
  | [] => []
  | ch :: rest => ch.pending.map (fun ev => (i, ev)) ++ pendingFrom (i + 1) rest

/-- What makes a channel the channel it is, apart from the events pending in
it: its watch points and its dispatcher. -/
def Chan.identity (ch : Chan) : List String × Bool :=
  (ch.watches, ch.dispatcher)

/-! ## Runs of the watcher -/

/-- What can happen to a watcher: a call of `Listen`, an event put into a
channel by the event source, a call of `Notify`, a round of a dispatcher
`NotifyWhenUpdated`, or the application changing its own state. -/
inductive Op (σ ε : Type) where
  | listen (Config : MergedConfig) (fs : FileSystem) (listener : Listener σ ε)
      (roots : List String)
  | produce (i : Nat) (ev : EventInfo)
  | notify
  | dispatch (listener : Listener σ ε) (i : Nat)
  | app (f : σ → σ)

/-- The watcher, the state of the application, and what the `Notify` calls
made so far returned, oldest first. -/
structure Sys (σ ε : Type) where
  w : Watcher σ ε
  s : σ
  rets : List (Outcome (Option ε))

/-- The system right after `NewWatcher`. -/
def Sys.init {σ ε : Type} (s : σ) : Sys σ ε :=
  { w := NewWatcher σ ε, s := s, rets := [] }

/-- One operation on the system: `none` when `Listen` panics and when a
dispatcher finds its channel empty (it blocks, nothing happens). -/
def Sys.step {σ ε : Type} (st : Sys σ ε) : Op σ ε → Option (Sys σ ε)
  | .listen Config fs listener roots =>
    match Listen Config fs st.w listener roots with
    | none => none
    | some w1 => some { st with w := w1 }
  | .produce i ev => some { st with w := emit st.w i ev }
  | .notify =>
    let r := Notify st.w st.s
    some { w := r.w, s := r.s, rets := st.rets ++ [r.ret] }
  | .dispatch listener i =>
    match NotifyWhenUpdatedStep st.w listener i st.s with
    | none => none
    | some (w1, s1, _) => some { st with w := w1, s := s1 }
  | .app f => some { st with s := f st.s }

/-- A sequence of operations, one after the other. -/
def Sys.run {σ ε : Type} (st : Sys σ ε) : List (Op σ ε) → Option (Sys σ ε)
  | [] => some st
  | op :: ops =>
    match st.step op with
    | none => none
    | some st1 => Sys.run st1 ops

/-! ## The pipeline filter -/

/-- The part of a `Controller` that `WatchFilter` deals with: the field
`Result`, of the type `ρ` of results; `other` stands for its other fields. -/
structure Controller (ρ γ : Type) where
  Result : ρ
  other : γ

/-- What a filter of the chain can see and change: the controller, the global
`MainWatcher` (`none` for `nil`) and the state of the application. -/
structure Pipeline (σ ε ρ γ : Type) where
  c : Controller ρ γ
  MainWatcher : Option (Watcher σ ε)
  s : σ

/-- The result of `WatchFilter`: the state it leaves, the filters it invoked
itself, each with the chain handed to it, and whether it returned. -/
structure FilterResult (σ ε ρ γ φ : Type) where
  st : Pipeline σ ε ρ γ
  invoked : List (φ × List φ)
  ret : Outcome Unit

/-- `WatchFilter`.  The type `Filter` and the method `Controller.RenderError`
are declared outside the sources at hand: `φ` is the type of filters, `call f
rest` is what invoking the filter `f` with the chain `rest` does, and
`RenderError` builds the result for an error.  The call `fc[0]` panics on an
empty chain. -/
def WatchFilter {σ ε ρ γ φ : Type} (RenderError : Controller ρ γ → ε → ρ)
    (call : φ → List φ → Pipeline σ ε ρ γ → Pipeline σ ε ρ γ)
    (st : Pipeline σ ε ρ γ) (fc : List φ) : FilterResult σ ε ρ γ φ :=
  let next (st1 : Pipeline σ ε ρ γ) : FilterResult σ ε ρ γ φ :=
    match fc with
    | [] => { st := st1, invoked := [], ret := .panicked }
    | f :: rest => { st := call f rest st1, invoked := [(f, rest)], ret := .returned () }
  match st.MainWatcher with
  | none => next st
  | some w =>
    let r := Notify w st.s
    let st1 : Pipeline σ ε ρ γ := { st with MainWatcher := some r.w, s := r.s }
    match r.ret with
    | .panicked => { st := st1, invoked := [], ret := .panicked }
    | .returned (some err) =>
      { st := { st1 with c := { st1.c with Result := RenderError st1.c err } },
        invoked := [], ret := .returned () }
    | .returned none => next st1

/-- A run for the examples: two registrations (the second with a dispatcher and
roots that cannot be inspected), a cycle in which the first listener fails, an
event handled by the dispatcher, a cycle that succeeds, and a cycle with
nothing to do. -/
def sampleRun : List (Op Nat String) :=
  [.listen emptyConfig plainFS recoveringListener ["/app"],
   .listen eagerConfig deadFS goListener ["/conf", "/lib"],
   .notify,
   .produce 1 ⟨"/conf/app.go"⟩,
   .dispatch goListener 1,
   .notify,
   .app (fun n => n + 1),
   .notify]

/-- What every operation preserves: there is a channel for every listener and
a listener for every channel, `lastError` is `-1` or the index of a listener,
`forceRefresh` tells that no `Notify` call returned `nil` yet, and no `Notify`
call panicked. -/
def Sys.Inv {σ ε : Type} (st : Sys σ ε) : Prop :=
  st.w.events.length = st.w.listeners.length ∧
    (st.w.lastError = -1 ∨ (0 ≤ st.w.lastError ∧ st.w.lastError < st.w.listeners.length)) ∧
    (st.w.forceRefresh = true ↔ ∀ r ∈ st.rets, r ≠ .returned none) ∧
    ∀ r ∈ st.rets, r ≠ .panicked

/-! ## Lemmas on the loop of `Notify` -/

theorem drain_eq_any {σ ε : Type} (listener : Listener σ ε) (evs : List EventInfo) (b : Bool) :
    drain listener evs b = (b || evs.any (fun ev => rebuildRequired ev listener)) := by
  induction evs generalizing b with
  | nil => simp [drain]
  | cons ev rest ih =>
    simp only [drain, ih, List.any_cons]
    cases rebuildRequired ev listener <;> cases b <;> simp

theorem notifyLoop_nil {σ ε : Type} (w : Watcher σ ε) (i : Nat) (s : σ) :
    notifyLoop w i [] s = { chans := [], s := s, trace := [], exit := .completed } := by
  simp [notifyLoop]

theorem notifyLoop_cons_panic {σ ε : Type} (w : Watcher σ ε) (i : Nat) (eventCh : Chan)
    (todo : List Chan) (s : σ) (hl : w.listeners[i]? = none) :
    notifyLoop w i (eventCh :: todo) s =
      { chans := eventCh :: todo, s := s, trace := [], exit := .indexPanic } := by
  simp [notifyLoop, hl]

theorem notifyLoop_cons_skip {σ ε : Type} (w : Watcher σ ε) (i : Nat) (eventCh : Chan)
    (todo : List Chan) (s : σ) (l : Listener σ ε) (hl : w.listeners[i]? = some l)
    (hc : wantsRefresh w i l eventCh.pending = false) :
    notifyLoop w i (eventCh :: todo) s =
      { chans := { eventCh with pending := [] } :: (notifyLoop w (i + 1) todo s).chans,
        s := (notifyLoop w (i + 1) todo s).s,
        trace := eventCh.pending.map (Step.recv i) ++ (notifyLoop w (i + 1) todo s).trace,
        exit := (notifyLoop w (i + 1) todo s).exit } := by
  unfold wantsRefresh at hc
  simp only [notifyLoop, hl, hc, Bool.false_eq_true, if_false]

theorem notifyLoop_cons_fail {σ ε : Type} (w : Watcher σ ε) (i : Nat) (eventCh : Chan)
    (todo : List Chan) (s s1 : σ) (l : Listener σ ε) (err : ε)
    (hl : w.listeners[i]? = some l)
    (hc : wantsRefresh w i l eventCh.pending = true) (hr : l.Refresh s = (some err, s1)) :
    notifyLoop w i (eventCh :: todo) s =
      { chans := { eventCh with pending := [] } :: todo, s := s1,
        trace := eventCh.pending.map (Step.recv i) ++ [Step.refresh i (some err)],
        exit := .failed i err } := by
  unfold wantsRefresh at hc
  simp only [notifyLoop, hl, hc, hr, if_true]

theorem notifyLoop_cons_ok {σ ε : Type} (w : Watcher σ ε) (i : Nat) (eventCh : Chan)
    (todo : List Chan) (s s1 : σ) (l : Listener σ ε)
    (hl : w.listeners[i]? = some l)
    (hc : wantsRefresh w i l eventCh.pending = true) (hr : l.Refresh s = (none, s1)) :
    notifyLoop w i (eventCh :: todo) s =
      { chans := { eventCh with pending := [] } :: (notifyLoop w (i + 1) todo s1).chans,
        s := (notifyLoop w (i + 1) todo s1).s,
        trace := eventCh.pending.map (Step.recv i) ++
          Step.refresh i none :: (notifyLoop w (i + 1) todo s1).trace,
        exit := (notifyLoop w (i + 1) todo s1).exit } := by
  unfold wantsRefresh at hc
  simp only [notifyLoop, hl, hc, hr, if_true]

/-- Every step of the loop from index `i` concerns an index from `i` on, below
the number of channels. -/
theorem notifyLoop_idx {σ ε : Type} (w : Watcher σ ε) (todo : List Chan) :
    ∀ (i : Nat) (s : σ), ∀ st ∈ (notifyLoop w i todo s).trace,
      i ≤ st.idx ∧ st.idx < i + todo.length := by
  induction todo with
  | nil => intro i s st h; simp [notifyLoop] at h
  | cons eventCh todo ih =>
    intro i s st h
    cases hl : w.listeners[i]? with
    | none => rw [notifyLoop_cons_panic w i eventCh todo s hl] at h; simp at h
    | some l =>
      cases hc : wantsRefresh w i l eventCh.pending with
      | false =>
        rw [notifyLoop_cons_skip w i eventCh todo s l hl hc] at h
        simp only [List.mem_append, List.mem_map] at h
        rcases h with ⟨ev, _, rfl⟩ | h
        · simp [Step.idx]
        · have := ih (i + 1) _ st h
          simp only [List.length_cons]; omega
      | true =>
        rcases hr : l.Refresh s with ⟨_ | err, s1⟩
        · rw [notifyLoop_cons_ok w i eventCh todo s s1 l hl hc hr] at h
          simp only [List.mem_append, List.mem_map, List.mem_cons] at h
          rcases h with ⟨ev, _, rfl⟩ | rfl | h
          · simp [Step.idx]
          · simp [Step.idx]
          · have := ih (i + 1) _ st h
            simp only [List.length_cons]; omega
        · rw [notifyLoop_cons_fail w i eventCh todo s s1 l err hl hc hr] at h
          simp only [List.mem_append, List.mem_map, List.mem_singleton] at h
          rcases h with ⟨ev, _, rfl⟩ | rfl <;> simp [Step.idx]

/-- When the loop is left by an error of listener `j`, the trace ends with that
failing `Refresh`; before it no `Refresh` failed, every step concerns an index
up to `j`, and every `Refresh` is of a listener below `j`.  The error is the
one the listener at index `j` returned. -/
theorem notifyLoop_failed {σ ε : Type} (w : Watcher σ ε) (todo : List Chan) :
    ∀ (i : Nat) (s : σ) (j : Nat) (e : ε), (notifyLoop w i todo s).exit = .failed j e →
      ∃ pre, (notifyLoop w i todo s).trace = pre ++ [Step.refresh j (some e)] ∧
        (∀ st ∈ pre, st.isFailure = false ∧ st.idx ≤ j ∧
          (st.isRefresh = true → st.idx < j)) ∧
        ∃ l s0, w.listeners[j]? = some l ∧
          l.Refresh s0 = (some e, (notifyLoop w i todo s).s) := by
  induction todo with
  | nil => intro i s j e h; simp [notifyLoop] at h
  | cons eventCh todo ih =>
    intro i s j e h
    cases hl : w.listeners[i]? with
    | none => rw [notifyLoop_cons_panic w i eventCh todo s hl] at h; simp at h
    | some l =>
      cases hc : wantsRefresh w i l eventCh.pending with
      | false =>
        rw [notifyLoop_cons_skip w i eventCh todo s l hl hc] at h ⊢
        simp only at h ⊢
        obtain ⟨pre, hpre, hall, hex⟩ := ih (i + 1) s j e h
        have hj : i + 1 ≤ j := by
          have := notifyLoop_idx w todo (i + 1) s (Step.refresh j (some e))
            (by rw [hpre]; simp)
          simpa [Step.idx] using this.1
        refine ⟨eventCh.pending.map (Step.recv i) ++ pre, by rw [hpre]; simp, ?_, hex⟩
        intro st hst
        simp only [List.mem_append, List.mem_map] at hst
        rcases hst with ⟨ev, _, rfl⟩ | hst
        · simp [Step.isFailure, Step.idx, Step.isRefresh]; omega
        · exact hall st hst
      | true =>
        rcases hr : l.Refresh s with ⟨_ | err, s1⟩
        · rw [notifyLoop_cons_ok w i eventCh todo s s1 l hl hc hr] at h ⊢
          simp only at h ⊢
          obtain ⟨pre, hpre, hall, hex⟩ := ih (i + 1) s1 j e h
          have hj : i + 1 ≤ j := by
            have := notifyLoop_idx w todo (i + 1) s1 (Step.refresh j (some e))
              (by rw [hpre]; simp)
            simpa [Step.idx] using this.1
          refine ⟨eventCh.pending.map (Step.recv i) ++ Step.refresh i none :: pre,
            by rw [hpre]; simp, ?_, hex⟩
          intro st hst
          simp only [List.mem_append, List.mem_map, List.mem_cons] at hst
          rcases hst with ⟨ev, _, rfl⟩ | rfl | hst
          · simp [Step.isFailure, Step.idx, Step.isRefresh]; omega
          · simp [Step.isFailure, Step.idx, Step.isRefresh]; omega
          · exact hall st hst
        · rw [notifyLoop_cons_fail w i eventCh todo s s1 l err hl hc hr] at h ⊢
          simp only [LoopExit.failed.injEq] at h ⊢
          obtain ⟨rfl, rfl⟩ := h
          refine ⟨eventCh.pending.map (Step.recv i), rfl, ?_, l, s, hl, hr⟩
          intro st hst
          simp only [List.mem_map] at hst
          obtain ⟨ev, _, rfl⟩ := hst
          simp [Step.isFailure, Step.idx, Step.isRefresh]

/-- When the loop is not left by an error, no `Refresh` in its trace failed. -/
theorem notifyLoop_not_failed {σ ε : Type} (w : Watcher σ ε) (todo : List Chan) :
    ∀ (i : Nat) (s : σ), (∀ j e, (notifyLoop w i todo s).exit ≠ .failed j e) →
      ∀ st ∈ (notifyLoop w i todo s).trace, st.isFailure = false := by
  induction todo with
  | nil => intro i s _ st h; simp [notifyLoop] at h
  | cons eventCh todo ih =>
    intro i s hne st h
    cases hl : w.listeners[i]? with
    | none => rw [notifyLoop_cons_panic w i eventCh todo s hl] at h; simp at h
    | some l =>
      cases hc : wantsRefresh w i l eventCh.pending with
      | false =>
        rw [notifyLoop_cons_skip w i eventCh todo s l hl hc] at h hne
        simp only [List.mem_append, List.mem_map] at h
        rcases h with ⟨ev, _, rfl⟩ | h
        · rfl
        · exact ih (i + 1) s hne st h
      | true =>
        rcases hr : l.Refresh s with ⟨_ | err, s1⟩
        · rw [notifyLoop_cons_ok w i eventCh todo s s1 l hl hc hr] at h hne
          simp only [List.mem_append, List.mem_map, List.mem_cons] at h
          rcases h with ⟨ev, _, rfl⟩ | rfl | h
          · rfl
          · rfl
          · exact ih (i + 1) s1 hne st h
        · rw [notifyLoop_cons_fail w i eventCh todo s s1 l err hl hc hr] at hne
          exact absurd rfl (hne i err)

/-! ## Lemmas on `Notify` -/

theorem Notify_trace {σ ε : Type} (w : Watcher σ ε) (s : σ) :
    (Notify w s).trace = (notifyLoop w 0 w.events s).trace := by
  unfold Notify; dsimp only; split <;> rfl

theorem Notify_s {σ ε : Type} (w : Watcher σ ε) (s : σ) :
    (Notify w s).s = (notifyLoop w 0 w.events s).s := by
  unfold Notify; dsimp only; split <;> rfl

theorem Notify_listeners {σ ε : Type} (w : Watcher σ ε) (s : σ) :
    (Notify w s).w.listeners = w.listeners := by
  unfold Notify; dsimp only; split <;> rfl

theorem Notify_events {σ ε : Type} (w : Watcher σ ε) (s : σ) :
    (Notify w s).w.events = (notifyLoop w 0 w.events s).chans := by
  unfold Notify; dsimp only; split <;> rfl

theorem Notify_ret_none {σ ε : Type} (w : Watcher σ ε) (s : σ) :
    (Notify w s).ret = .returned none ↔ (notifyLoop w 0 w.events s).exit = .completed := by
  unfold Notify; dsimp only; split <;> simp_all

theorem Notify_ret_some {σ ε : Type} (w : Watcher σ ε) (s : σ) (e : ε) :
    (Notify w s).ret = .returned (some e) ↔
      ∃ i, (notifyLoop w 0 w.events s).exit = .failed i e := by
  unfold Notify; dsimp only; split <;> simp_all

theorem Notify_state_failed {σ ε : Type} (w : Watcher σ ε) (s : σ) (i : Nat) (e : ε)
    (h : (notifyLoop w 0 w.events s).exit = .failed i e) :
    (Notify w s).w.lastError = (i : Int) ∧ (Notify w s).w.forceRefresh = w.forceRefresh := by
  unfold Notify; dsimp only; split <;> simp_all

theorem Notify_state_completed {σ ε : Type} (w : Watcher σ ε) (s : σ)
    (h : (notifyLoop w 0 w.events s).exit = .completed) :
    (Notify w s).w.lastError = -1 ∧ (Notify w s).w.forceRefresh = false := by
  unfold Notify; dsimp only; split <;> simp_all

/-- A failing `Refresh` in the trace of the loop is the reason the loop was left. -/
theorem notifyLoop_failure_mem {σ ε : Type} (w : Watcher σ ε) (todo : List Chan) (i : Nat)
    (s : σ) (j : Nat) (e : ε) (h : Step.refresh j (some e) ∈ (notifyLoop w i todo s).trace) :
    (notifyLoop w i todo s).exit = .failed j e := by
  by_cases hne : ∀ j e, (notifyLoop w i todo s).exit ≠ .failed j e
  · have := notifyLoop_not_failed w todo i s hne _ h
    simp [Step.isFailure] at this
  · push_neg at hne
    obtain ⟨j2, e2, hex⟩ := hne
    obtain ⟨pre, hpre, hall, _⟩ := notifyLoop_failed w todo i s j2 e2 hex
    rw [hpre] at h
    simp only [List.mem_append, List.mem_singleton] at h
    rcases h with h | h
    · have := (hall _ h).1
      simp [Step.isFailure] at this
    · cases h; exact hex

/-- The loop reaches index `k` unless a listener below `k` fails; when it does,
the trace splits into the steps below `k`, the receives from channel `k`, the
`Refresh` of listener `k` exactly when the condition of `Notify` holds, and the
steps above `k`. -/
theorem notifyLoop_at {σ ε : Type} (w : Watcher σ ε) (todo : List Chan) :
    ∀ (i0 : Nat) (s : σ) (k : Nat), i0 ≤ k → k < i0 + todo.length → k < w.listeners.length →
      (∃ j e, j < k ∧ (notifyLoop w i0 todo s).exit = .failed j e) ∨
      ∃ pre post l ch, w.listeners[k]? = some l ∧ todo[k - i0]? = some ch ∧
        (∀ st ∈ pre, st.idx < k ∧ st.isFailure = false) ∧ (∀ st ∈ post, k < st.idx) ∧
        ((wantsRefresh w k l ch.pending = true ∧
            ∃ r, (notifyLoop w i0 todo s).trace =
              pre ++ ch.pending.map (Step.recv k) ++ Step.refresh k r :: post) ∨
         (wantsRefresh w k l ch.pending = false ∧
            (notifyLoop w i0 todo s).trace = pre ++ ch.pending.map (Step.recv k) ++ post)) := by
  induction todo with
  | nil => intro i0 s k h1 h2 _; simp at h2; omega
  | cons eventCh todo ih =>
    intro i0 s k h1 h2 hk
    have hi0 : i0 < w.listeners.length := by omega
    obtain ⟨l, hl⟩ : ∃ l, w.listeners[i0]? = some l := ⟨_, List.getElem?_eq_getElem hi0⟩
    rcases Nat.eq_or_lt_of_le h1 with rfl | hlt
    · -- the listener looked at first is the one asked about
      right
      cases hc : wantsRefresh w i0 l eventCh.pending with
      | false =>
        refine ⟨[], (notifyLoop w (i0 + 1) todo s).trace, l, eventCh, hl, by simp, by simp, ?_,
          Or.inr ⟨hc, ?_⟩⟩
        · intro st hst
          have := (notifyLoop_idx w todo (i0 + 1) s st hst).1
          omega
        · rw [notifyLoop_cons_skip w i0 eventCh todo s l hl hc]; simp
      | true =>
        rcases hr : l.Refresh s with ⟨_ | err, s1⟩
        · refine ⟨[], (notifyLoop w (i0 + 1) todo s1).trace, l, eventCh, hl, by simp, by simp, ?_,
            Or.inl ⟨hc, none, ?_⟩⟩
          · intro st hst
            have := (notifyLoop_idx w todo (i0 + 1) s1 st hst).1
            omega
          · rw [notifyLoop_cons_ok w i0 eventCh todo s s1 l hl hc hr]; simp
        · refine ⟨[], [], l, eventCh, hl, by simp, by simp, by simp, Or.inl ⟨hc, some err, ?_⟩⟩
          rw [notifyLoop_cons_fail w i0 eventCh todo s s1 l err hl hc hr]; simp
    · -- the listener asked about comes later
      have hidx : k - i0 = (k - (i0 + 1)) + 1 := by omega
      have hlen : k < i0 + 1 + todo.length := by simp at h2; omega
      cases hc : wantsRefresh w i0 l eventCh.pending with
      | false =>
        rw [notifyLoop_cons_skip w i0 eventCh todo s l hl hc]
        rcases ih (i0 + 1) s k hlt hlen hk with h | ⟨pre, post, lk, ch, hlk, hch, hpre, hpost, h⟩
        · exact Or.inl h
        · right
          refine ⟨eventCh.pending.map (Step.recv i0) ++ pre, post, lk, ch, hlk,
            by rw [hidx, List.getElem?_cons_succ]; exact hch, ?_, hpost, ?_⟩
          · intro st hst
            simp only [List.mem_append, List.mem_map] at hst
            rcases hst with ⟨ev, _, rfl⟩ | hst
            · exact ⟨by simpa [Step.idx] using hlt, rfl⟩
            · exact hpre st hst
          · rcases h with ⟨hw, r, htr⟩ | ⟨hw, htr⟩
            · exact Or.inl ⟨hw, r, by simp only [htr, List.append_assoc]⟩
            · exact Or.inr ⟨hw, by simp only [htr, List.append_assoc]⟩
      | true =>
        rcases hr : l.Refresh s with ⟨_ | err, s1⟩
        · rw [notifyLoop_cons_ok w i0 eventCh todo s s1 l hl hc hr]
          rcases ih (i0 + 1) s1 k hlt hlen hk with h | ⟨pre, post, lk, ch, hlk, hch, hpre, hpost, h⟩
          · exact Or.inl h
          · right
            refine ⟨eventCh.pending.map (Step.recv i0) ++ Step.refresh i0 none :: pre, post, lk, ch,
              hlk, by rw [hidx, List.getElem?_cons_succ]; exact hch, ?_, hpost, ?_⟩
            · intro st hst
              simp only [List.mem_append, List.mem_map, List.mem_cons] at hst
              rcases hst with ⟨ev, _, rfl⟩ | rfl | hst
              · exact ⟨by simpa [Step.idx] using hlt, rfl⟩
              · exact ⟨by simpa [Step.idx] using hlt, rfl⟩
              · exact hpre st hst
            · rcases h with ⟨hw, r, htr⟩ | ⟨hw, htr⟩
              · exact Or.inl ⟨hw, r, by simp only [htr, List.append_assoc, List.cons_append]⟩
              · exact Or.inr ⟨hw, by simp only [htr, List.append_assoc, List.cons_append]⟩
        · left
          exact ⟨i0, err, hlt, by rw [notifyLoop_cons_fail w i0 eventCh todo s s1 l err hl hc hr]⟩

/-- When no listener from `i0` on meets the condition of `Notify`, the loop
invokes no `Refresh`. -/
theorem notifyLoop_quiet {σ ε : Type} (w : Watcher σ ε) (todo : List Chan) :
    ∀ (i0 : Nat) (s : σ),
      (∀ (p : Nat) (l : Listener σ ε) (ch : Chan), w.listeners[i0 + p]? = some l →
        todo[p]? = some ch → wantsRefresh w (i0 + p) l ch.pending = false) →
      ∀ st ∈ (notifyLoop w i0 todo s).trace, st.isRefresh = false := by
  induction todo with
  | nil => intro i0 s _ st h; simp [notifyLoop] at h
  | cons eventCh todo ih =>
    intro i0 s hq st h
    cases hl : w.listeners[i0]? with
    | none => rw [notifyLoop_cons_panic w i0 eventCh todo s hl] at h; simp at h
    | some l =>
      have hc := hq 0 l eventCh (by simpa using hl) (by simp)
      simp only [Nat.add_zero] at hc
      rw [notifyLoop_cons_skip w i0 eventCh todo s l hl hc] at h
      simp only [List.mem_append, List.mem_map] at h
      rcases h with ⟨ev, _, rfl⟩ | h
      · rfl
      · refine ih (i0 + 1) s ?_ st h
        intro p l2 ch hl2 hch
        have := hq (p + 1) l2 ch (by rw [← hl2]; congr 1; omega) (by simpa using hch)
        rw [← this]; congr 1; omega

/-- The list of refreshed listeners is empty exactly when no step is a `Refresh`. -/
theorem refreshed_eq_nil {ε : Type} (trace : List (Step ε)) :
    refreshed trace = [] ↔ ∀ st ∈ trace, st.isRefresh = false := by
  simp [refreshed, List.filter_eq_nil_iff]

/-- With `forceRefresh` set, a loop that runs to completion refreshes every
listener it ranges over, once each, in order. -/
theorem notifyLoop_forced {σ ε : Type} (w : Watcher σ ε) (hf : w.forceRefresh = true)
    (todo : List Chan) :
    ∀ (i0 : Nat) (s : σ), (notifyLoop w i0 todo s).exit = .completed →
      refreshed (notifyLoop w i0 todo s).trace = List.range' i0 todo.length := by
  induction todo with
  | nil => intro i0 s _; simp [notifyLoop, refreshed]
  | cons eventCh todo ih =>
    intro i0 s h
    cases hl : w.listeners[i0]? with
    | none => rw [notifyLoop_cons_panic w i0 eventCh todo s hl] at h; simp at h
    | some l =>
      have hc : wantsRefresh w i0 l eventCh.pending = true := by simp [wantsRefresh, hf]
      rcases hr : l.Refresh s with ⟨_ | err, s1⟩
      · rw [notifyLoop_cons_ok w i0 eventCh todo s s1 l hl hc hr] at h ⊢
        have := ih (i0 + 1) s1 h
        simp only [refreshed] at this ⊢
        simp [List.filter_append, List.filter_map, Step.isRefresh, Step.idx, this,
          List.range'_succ, Function.comp_def]
      · rw [notifyLoop_cons_fail w i0 eventCh todo s s1 l err hl hc hr] at h; simp at h

/-! ## More on the trace of the loop -/

theorem refreshed_append {ε : Type} (a b : List (Step ε)) :
    refreshed (a ++ b) = refreshed a ++ refreshed b := by
  simp [refreshed]

theorem refreshed_recv {ε : Type} (i : Nat) (evs : List EventInfo) :
    refreshed (evs.map (Step.recv (ε := ε) i)) = [] := by
  rw [refreshed_eq_nil]
  intro st hst
  simp only [List.mem_map] at hst
  obtain ⟨ev, _, rfl⟩ := hst
  rfl

theorem refreshed_cons_refresh {ε : Type} (i : Nat) (r : Option ε) (t : List (Step ε)) :
    refreshed (Step.refresh i r :: t) = i :: refreshed t := by
  simp [refreshed, Step.isRefresh, Step.idx]

theorem mem_refreshed {ε : Type} (trace : List (Step ε)) (k : Nat) :
    k ∈ refreshed trace ↔ ∃ r, Step.refresh k r ∈ trace := by
  simp only [refreshed, List.mem_map, List.mem_filter]
  constructor
  · rintro ⟨st, ⟨hst, hr⟩, rfl⟩
    cases st with
    | recv i ev => simp [Step.isRefresh] at hr
    | refresh i r => exact ⟨r, hst⟩
  · rintro ⟨r, h⟩
    exact ⟨_, ⟨h, rfl⟩, rfl⟩

/-- The loop leaves as many channels as it was given. -/
theorem notifyLoop_chans_length {σ ε : Type} (w : Watcher σ ε) (todo : List Chan) :
    ∀ (i : Nat) (s : σ), (notifyLoop w i todo s).chans.length = todo.length := by
  induction todo with
  | nil => intro i s; simp [notifyLoop]
  | cons eventCh todo ih =>
    intro i s
    cases hl : w.listeners[i]? with
    | none => rw [notifyLoop_cons_panic w i eventCh todo s hl]
    | some l =>
      cases hc : wantsRefresh w i l eventCh.pending with
      | false => rw [notifyLoop_cons_skip w i eventCh todo s l hl hc]; simp [ih]
      | true =>
        rcases hr : l.Refresh s with ⟨_ | err, s1⟩
        · rw [notifyLoop_cons_ok w i eventCh todo s s1 l hl hc hr]; simp [ih]
        · rw [notifyLoop_cons_fail w i eventCh todo s s1 l err hl hc hr]; simp

/-- A loop that runs to completion leaves every channel empty. -/
theorem notifyLoop_completed_chans {σ ε : Type} (w : Watcher σ ε) (todo : List Chan) :
    ∀ (i : Nat) (s : σ), (notifyLoop w i todo s).exit = .completed →
      ∀ ch ∈ (notifyLoop w i todo s).chans, ch.pending = [] := by
  induction todo with
  | nil => intro i s _ ch h; simp [notifyLoop] at h
  | cons eventCh todo ih =>
    intro i s hex ch h
    cases hl : w.listeners[i]? with
    | none => rw [notifyLoop_cons_panic w i eventCh todo s hl] at hex; simp at hex
    | some l =>
      cases hc : wantsRefresh w i l eventCh.pending with
      | false =>
        rw [notifyLoop_cons_skip w i eventCh todo s l hl hc] at hex h
        simp only [List.mem_cons] at h
        rcases h with rfl | h
        · rfl
        · exact ih (i + 1) s hex ch h
      | true =>
        rcases hr : l.Refresh s with ⟨_ | err, s1⟩
        · rw [notifyLoop_cons_ok w i eventCh todo s s1 l hl hc hr] at hex h
          simp only [List.mem_cons] at h
          rcases h with rfl | h
          · rfl
          · exact ih (i + 1) s1 hex ch h
        · rw [notifyLoop_cons_fail w i eventCh todo s s1 l err hl hc hr] at hex; simp at hex

/-- The lookup `w.listeners[i]` does not panic when there is a listener for
every channel. -/
theorem notifyLoop_no_panic {σ ε : Type} (w : Watcher σ ε) (todo : List Chan) :
    ∀ (i : Nat) (s : σ), i + todo.length ≤ w.listeners.length →
      (notifyLoop w i todo s).exit ≠ .indexPanic := by
  induction todo with
  | nil => intro i s _; simp [notifyLoop]
  | cons eventCh todo ih =>
    intro i s hlen
    simp only [List.length_cons] at hlen
    have hi : i < w.listeners.length := by omega
    obtain ⟨l, hl⟩ : ∃ l, w.listeners[i]? = some l := ⟨_, List.getElem?_eq_getElem hi⟩
    cases hc : wantsRefresh w i l eventCh.pending with
    | false =>
      rw [notifyLoop_cons_skip w i eventCh todo s l hl hc]
      exact ih (i + 1) s (by omega)
    | true =>
      rcases hr : l.Refresh s with ⟨_ | err, s1⟩
      · rw [notifyLoop_cons_ok w i eventCh todo s s1 l hl hc hr]
        exact ih (i + 1) s1 (by omega)
      · rw [notifyLoop_cons_fail w i eventCh todo s s1 l err hl hc hr]; simp

/-- A `Refresh` in the trace of the loop is of a listener that met the
condition of `Notify`. -/
theorem notifyLoop_refresh_wants {σ ε : Type} (w : Watcher σ ε) (todo : List Chan) :
    ∀ (i0 : Nat) (s : σ) (k : Nat) (r : Option ε),
      Step.refresh k r ∈ (notifyLoop w i0 todo s).trace →
      ∃ l ch, w.listeners[k]? = some l ∧ todo[k - i0]? = some ch ∧
        wantsRefresh w k l ch.pending = true := by
  induction todo with
  | nil => intro i0 s k r h; simp [notifyLoop] at h
  | cons eventCh todo ih =>
    intro i0 s k r h
    have shift : ∀ s1, Step.refresh k r ∈ (notifyLoop w (i0 + 1) todo s1).trace →
        ∃ l ch, w.listeners[k]? = some l ∧ (eventCh :: todo)[k - i0]? = some ch ∧
          wantsRefresh w k l ch.pending = true := by
      intro s1 h1
      obtain ⟨l, ch, h2, h3, h4⟩ := ih (i0 + 1) s1 k r h1
      have hk := (notifyLoop_idx w todo (i0 + 1) s1 _ h1).1
      simp only [Step.idx] at hk
      have hidx : k - i0 = (k - (i0 + 1)) + 1 := by omega
      exact ⟨l, ch, h2, by rw [hidx, List.getElem?_cons_succ]; exact h3, h4⟩
    cases hl : w.listeners[i0]? with
    | none => rw [notifyLoop_cons_panic w i0 eventCh todo s hl] at h; simp at h
    | some l =>
      cases hc : wantsRefresh w i0 l eventCh.pending with
      | false =>
        rw [notifyLoop_cons_skip w i0 eventCh todo s l hl hc] at h
        simp only [List.mem_append, List.mem_map] at h
        rcases h with ⟨ev, _, h⟩ | h
        · cases h
        · exact shift s h
      | true =>
        rcases hr : l.Refresh s with ⟨_ | err, s1⟩
        · rw [notifyLoop_cons_ok w i0 eventCh todo s s1 l hl hc hr] at h
          simp only [List.mem_append, List.mem_map, List.mem_cons] at h
          rcases h with ⟨ev, _, h⟩ | h | h
          · cases h
          · cases h; exact ⟨l, eventCh, hl, by simp, hc⟩
          · exact shift s1 h
        · rw [notifyLoop_cons_fail w i0 eventCh todo s s1 l err hl hc hr] at h
          simp only [List.mem_append, List.mem_map, List.mem_singleton] at h
          rcases h with ⟨ev, _, h⟩ | h
          · cases h
          · cases h; exact ⟨l, eventCh, hl, by simp, hc⟩

/-- The listeners refreshed by the loop are refreshed in increasing order of
index, hence each at most once. -/
theorem notifyLoop_refreshed_pairwise {σ ε : Type} (w : Watcher σ ε) (todo : List Chan) :
    ∀ (i : Nat) (s : σ), (refreshed (notifyLoop w i todo s).trace).Pairwise (fun a b => a < b) := by
  induction todo with
  | nil => intro i s; simp [notifyLoop, refreshed]
  | cons eventCh todo ih =>
    intro i s
    have above : ∀ s1, ∀ k ∈ refreshed (notifyLoop w (i + 1) todo s1).trace, i < k := by
      intro s1 k hk
      obtain ⟨r, hr⟩ := (mem_refreshed _ k).1 hk
      have := (notifyLoop_idx w todo (i + 1) s1 _ hr).1
      simp only [Step.idx] at this
      omega
    cases hl : w.listeners[i]? with
    | none => rw [notifyLoop_cons_panic w i eventCh todo s hl]; simp [refreshed]
    | some l =>
      cases hc : wantsRefresh w i l eventCh.pending with
      | false =>
        rw [notifyLoop_cons_skip w i eventCh todo s l hl hc]
        simp only [refreshed_append, refreshed_recv, List.nil_append]
        exact ih (i + 1) s
      | true =>
        rcases hr : l.Refresh s with ⟨_ | err, s1⟩
        · rw [notifyLoop_cons_ok w i eventCh todo s s1 l hl hc hr]
          simp only [refreshed_append, refreshed_recv, List.nil_append, refreshed_cons_refresh]
          exact List.Pairwise.cons (above s1) (ih (i + 1) s1)
        · rw [notifyLoop_cons_fail w i eventCh todo s s1 l err hl hc hr]
          simp only [refreshed_append, refreshed_recv, List.nil_append, refreshed_cons_refresh]
          simp [refreshed]

/-! ## Lemmas on `Listen` and on arriving events -/

theorem Listen_some {σ ε : Type} (Config : MergedConfig) (fs : FileSystem) (w w1 : Watcher σ ε)
    (listener : Listener σ ε) (roots : List String)
    (h : Listen Config fs w listener roots = some w1) :
    ∃ ch : Chan, ch.pending = [] ∧ w1.events = w.events ++ [ch] ∧
      w1.listeners = w.listeners ++ [listener] ∧ w1.forceRefresh = w.forceRefresh ∧
      w1.lastError = w.lastError := by
  unfold Listen at h
  split at h
  · simp at h
  · simp only [Option.some.injEq] at h
    subst h
    exact ⟨_, rfl, rfl, rfl, rfl, rfl⟩

theorem ListenAll_some {σ ε : Type} (Config : MergedConfig) (fs : FileSystem)
    (regs : List (Listener σ ε × List String)) :
    ∀ (w w1 : Watcher σ ε), ListenAll Config fs w regs = some w1 →
      w1.listeners = w.listeners ++ regs.map Prod.fst ∧
      w1.events.length = w.events.length + regs.length ∧
      (∀ ch ∈ w1.events, ch ∈ w.events ∨ ch.pending = []) ∧
      w1.forceRefresh = w.forceRefresh ∧ w1.lastError = w.lastError := by
  induction regs with
  | nil =>
    intro w w1 h
    simp only [ListenAll, Option.some.injEq] at h
    subst h
    exact ⟨by simp, by simp, fun ch hch => Or.inl hch, rfl, rfl⟩
  | cons reg regs ih =>
    intro w w1 h
    obtain ⟨listener, roots⟩ := reg
    simp only [ListenAll] at h
    split at h
    · simp at h
    · rename_i w2 h2
      obtain ⟨ch, hch, hev, hls, hf, hle⟩ := Listen_some Config fs w w2 listener roots h2
      obtain ⟨h3, h4, h5, h6, h7⟩ := ih w2 w1 h
      refine ⟨by simp [h3, hls], by simp [h4, hev]; omega, ?_, by rw [h6, hf], by rw [h7, hle]⟩
      intro c hc
      rcases h5 c hc with h | h
      · rw [hev] at h
        simp only [List.mem_append, List.mem_singleton] at h
        rcases h with h | rfl
        · exact Or.inl h
        · exact Or.inr hch
      · exact Or.inr h

theorem arriveFrom_length (arrived : Nat → List EventInfo) (chans : List Chan) :
    ∀ i, (arriveFrom arrived i chans).length = chans.length := by
  induction chans with
  | nil => intro i; rfl
  | cons ch rest ih => intro i; simp [arriveFrom, ih]

theorem wantsRefresh_false {σ ε : Type} (w : Watcher σ ε) (j : Nat) (l : Listener σ ε)
    (pending : List EventInfo) (hf : w.forceRefresh = false)
    (hp : ∀ ev ∈ pending, rebuildRequired ev l = false) (hle : w.lastError ≠ (j : Int)) :
    wantsRefresh w j l pending = false := by
  have hany : pending.any (fun ev => rebuildRequired ev l) = false := by
    rw [List.any_eq_false]
    intro ev hev
    simp [hp ev hev]
  simp [wantsRefresh, hf, drain_eq_any, hany, hle]

theorem wantsRefresh_lastError {σ ε : Type} (w : Watcher σ ε) (i : Nat) (l : Listener σ ε)
    (pending : List EventInfo) (hle : w.lastError = (i : Int)) :
    wantsRefresh w i l pending = true := by
  simp [wantsRefresh, hle]

/-- After a `Notify` call that returned the error `e`, `lastError` is the index
`i` of a registered listener with a channel, and the failing `Refresh` of that
listener is in the trace of the call. -/
theorem Notify_failed_index {σ ε : Type} (w : Watcher σ ε) (s : σ) (e : ε)
    (h : (Notify w s).ret = .returned (some e)) :
    ∃ i : Nat, (Notify w s).w.lastError = (i : Int) ∧
      (Notify w s).w.forceRefresh = w.forceRefresh ∧
      Step.refresh i (some e) ∈ (Notify w s).trace ∧
      i < w.events.length ∧ i < w.listeners.length := by
  obtain ⟨i, hi⟩ := (Notify_ret_some w s e).1 h
  obtain ⟨pre, hpre, _, l, s0, hl, _⟩ := notifyLoop_failed w w.events 0 s i e hi
  have hmem : Step.refresh i (some e) ∈ (notifyLoop w 0 w.events s).trace := by
    rw [hpre]; simp
  have hidx := (notifyLoop_idx w w.events 0 s _ hmem).2
  simp only [Step.idx, Nat.zero_add] at hidx
  have hlt : i < w.listeners.length := by
    by_contra hge
    rw [List.getElem?_eq_none (by omega)] at hl
    cases hl
  exact ⟨i, (Notify_state_failed w s i e hi).1, (Notify_state_failed w s i e hi).2,
    by rw [Notify_trace]; exact hmem, hidx, hlt⟩

theorem wantsRefresh_iff {σ ε : Type} (w : Watcher σ ε) (i : Nat) (l : Listener σ ε)
    (pending : List EventInfo) :
    wantsRefresh w i l pending = true ↔
      (w.forceRefresh = true ∨ (∃ ev ∈ pending, rebuildRequired ev l = true) ∨
        w.lastError = (i : Int)) := by
  simp [wantsRefresh, drain_eq_any, or_assoc]

/-- An event whose base name starts with a dot is not relevant, for any
listener. -/
theorem rebuildRequired_dotfile {σ ε : Type} (ev : EventInfo) (l : Listener σ ε)
    (h : hasPrefixStr (pathBase ev.Path) "." = true) : rebuildRequired ev l = false := by
  simp [rebuildRequired, h]

/-! ## The claims -/

/-- C1: for every watcher state and whatever the listeners' `Refresh` calls do,
if `Notify` returns `nil` then in the resulting state `forceRefresh` is false
and `lastError` is `-1`. -/
theorem Notify_success_resets {σ ε : Type} (w : Watcher σ ε) (s : σ)
    (h : (Notify w s).ret = .returned none) :
    (Notify w s).w.forceRefresh = false ∧ (Notify w s).w.lastError = -1 := by
  have hc := (Notify_ret_none w s).1 h
  exact ⟨(Notify_state_completed w s hc).2, (Notify_state_completed w s hc).1⟩

/-- C1 at a watcher with two listeners whose cycle succeeds. -/
theorem Notify_success_resets_witness :
    (Notify retryingWatcher 0).ret = .returned none ∧
      (Notify retryingWatcher 0).w.forceRefresh = false ∧
      (Notify retryingWatcher 0).w.lastError = -1 :=
  ⟨rfl, Notify_success_resets retryingWatcher 0 rfl⟩

/-- C2: `Notify` returns an error exactly when a `Refresh` it invokes fails.
The value returned is then the error of that `Refresh`, as the listener
returned it; that `Refresh` is the last step of the call and the only one that
failed, every `Refresh` before it being of a listener of lower index;
`lastError` is the index of that listener and `forceRefresh` is as it was. -/
theorem Notify_error_iff {σ ε : Type} (w : Watcher σ ε) (s : σ) :
    ((∃ e, (Notify w s).ret = .returned (some e)) ↔
        ∃ st ∈ (Notify w s).trace, st.isFailure = true) ∧
      ∀ e, (Notify w s).ret = .returned (some e) →
        ∃ i pre, (Notify w s).trace = pre ++ [Step.refresh i (some e)] ∧
          (∀ st ∈ pre, st.isFailure = false ∧ st.idx ≤ i ∧ (st.isRefresh = true → st.idx < i)) ∧
          (∃ l s0, w.listeners[i]? = some l ∧ l.Refresh s0 = (some e, (Notify w s).s)) ∧
          (Notify w s).w.lastError = (i : Int) ∧
          (Notify w s).w.forceRefresh = w.forceRefresh := by
  have key : ∀ e, (Notify w s).ret = .returned (some e) →
      ∃ i pre, (Notify w s).trace = pre ++ [Step.refresh i (some e)] ∧
        (∀ st ∈ pre, st.isFailure = false ∧ st.idx ≤ i ∧ (st.isRefresh = true → st.idx < i)) ∧
        (∃ l s0, w.listeners[i]? = some l ∧ l.Refresh s0 = (some e, (Notify w s).s)) ∧
        (Notify w s).w.lastError = (i : Int) ∧
        (Notify w s).w.forceRefresh = w.forceRefresh := by
    intro e h
    obtain ⟨i, hi⟩ := (Notify_ret_some w s e).1 h
    obtain ⟨pre, hpre, hall, hex⟩ := notifyLoop_failed w w.events 0 s i e hi
    rw [Notify_trace, Notify_s]
    exact ⟨i, pre, hpre, hall, hex, Notify_state_failed w s i e hi⟩
  refine ⟨⟨?_, ?_⟩, key⟩
  · rintro ⟨e, h⟩
    obtain ⟨i, pre, hpre, _⟩ := key e h
    exact ⟨Step.refresh i (some e), by rw [hpre]; simp, rfl⟩
  · rintro ⟨st, hst, hfail⟩
    rw [Notify_trace] at hst
    cases st with
    | recv i ev => simp [Step.isFailure] at hfail
    | refresh i r =>
      cases r with
      | none => simp [Step.isFailure] at hfail
      | some e =>
        exact ⟨e, (Notify_ret_some w s e).2 ⟨i, notifyLoop_failure_mem w w.events 0 s i e hst⟩⟩

/-- C2 at a watcher whose second listener fails: the error is returned and
remembered. -/
theorem Notify_error_iff_witness :
    (Notify retryingWatcher 1).ret = .returned (some "template error") ∧
      ∃ i pre, (Notify retryingWatcher 1).trace = pre ++ [Step.refresh i (some "template error")] ∧
        (∀ st ∈ pre, st.isFailure = false ∧ st.idx ≤ i ∧ (st.isRefresh = true → st.idx < i)) ∧
        (∃ l s0, retryingWatcher.listeners[i]? = some l ∧
          l.Refresh s0 = (some "template error", (Notify retryingWatcher 1).s)) ∧
        (Notify retryingWatcher 1).w.lastError = (i : Int) ∧
        (Notify retryingWatcher 1).w.forceRefresh = retryingWatcher.forceRefresh :=
  ⟨rfl, (Notify_error_iff retryingWatcher 1).2 "template error" rfl⟩

/-- C3 (P4, error short-circuit): when the `Refresh` of the listener at index
`i` fails during a `Notify` call, every step of that call concerns an index up
to `i`: no listener above `i` is refreshed and no event is taken from a channel
above `i`, whatever is pending there and whatever `forceRefresh` and
`lastError` are. -/
theorem Notify_short_circuit {σ ε : Type} (w : Watcher σ ε) (s : σ) (i : Nat) (e : ε)
    (h : Step.refresh i (some e) ∈ (Notify w s).trace) :
    (∀ j r, i < j → Step.refresh j r ∉ (Notify w s).trace) ∧
      ∀ st ∈ (Notify w s).trace, st.idx ≤ i := by
  rw [Notify_trace] at h ⊢
  have hex := notifyLoop_failure_mem w w.events 0 s i e h
  obtain ⟨pre, hpre, hall, _⟩ := notifyLoop_failed w w.events 0 s i e hex
  have hidx : ∀ st ∈ (notifyLoop w 0 w.events s).trace, st.idx ≤ i := by
    intro st hst
    rw [hpre] at hst
    simp only [List.mem_append, List.mem_singleton] at hst
    rcases hst with hst | rfl
    · exact (hall st hst).2.1
    · simp [Step.idx]
  refine ⟨?_, hidx⟩
  intro j r hj hmem
  have := hidx _ hmem
  simp only [Step.idx] at this
  omega

/-- C3 at a fresh watcher whose first listener fails: the second, though
forced, is not refreshed. -/
theorem Notify_short_circuit_witness :
    Step.refresh 0 (some "rebuild failed") ∈
        (Notify (σ := Nat) (ε := String)
          { events := [⟨[], [], false⟩, ⟨[⟨"/app/main.go"⟩], [], false⟩],
            listeners := [brokenListener, okListener], forceRefresh := true, lastError := 1 }
          0).trace ∧
      ∀ r, Step.refresh 1 r ∉
        (Notify (σ := Nat) (ε := String)
          { events := [⟨[], [], false⟩, ⟨[⟨"/app/main.go"⟩], [], false⟩],
            listeners := [brokenListener, okListener], forceRefresh := true, lastError := 1 }
          0).trace :=
  ⟨List.mem_singleton.2 rfl,
    fun r => (Notify_short_circuit _ 0 0 "rebuild failed" (List.mem_singleton.2 rfl)).1 1 r
      (by decide)⟩

/-- C4 (P2, force-refresh-once), as the code has it: on a watcher freshly built
by `NewWatcher` on which any number of listeners were registered, with no
event pending, if no `Refresh` invoked by the first `Notify` call fails, then
that call returns `nil` and invokes `Refresh` on every registered listener
exactly once, in registration order, and a second `Notify` call, still with no
event pending, invokes `Refresh` on no listener and returns `nil`. -/
theorem fresh_Notify_twice {σ ε : Type} (Config : MergedConfig) (fs : FileSystem)
    (regs : List (Listener σ ε × List String)) (w : Watcher σ ε) (s : σ)
    (hw : ListenAll Config fs (NewWatcher σ ε) regs = some w)
    (hok : ∀ st ∈ (Notify w s).trace, st.isFailure = false) :
    (Notify w s).ret = .returned none ∧
      refreshed (Notify w s).trace = List.range regs.length ∧
      ∀ s2, refreshed (Notify (Notify w s).w s2).trace = [] ∧
        (Notify (Notify w s).w s2).ret = .returned none := by
  obtain ⟨hls, hlen, hpend, hf, hle⟩ := ListenAll_some Config fs regs _ w hw
  simp only [NewWatcher, List.nil_append, List.length_nil, Nat.zero_add, List.not_mem_nil,
    false_or] at hls hlen hpend hf hle
  have hll : w.listeners.length = regs.length := by rw [hls]; simp
  -- the first call runs to completion
  have hex : (notifyLoop w 0 w.events s).exit = .completed := by
    cases hx : (notifyLoop w 0 w.events s).exit with
    | completed => rfl
    | failed j e =>
      obtain ⟨pre, hpre, _⟩ := notifyLoop_failed w w.events 0 s j e hx
      have := hok (Step.refresh j (some e)) (by rw [Notify_trace, hpre]; simp)
      simp [Step.isFailure] at this
    | indexPanic => exact absurd hx (notifyLoop_no_panic w w.events 0 s (by omega))
  have hst := Notify_state_completed w s hex
  refine ⟨(Notify_ret_none w s).2 hex, ?_, ?_⟩
  · rw [Notify_trace, notifyLoop_forced w hf w.events 0 s hex, hlen, List.range_eq_range']
  · intro s2
    have hquiet : ∀ st ∈ (notifyLoop (Notify w s).w 0 (Notify w s).w.events s2).trace,
        st.isRefresh = false := by
      apply notifyLoop_quiet
      intro p l ch _ hch
      have hmem : ch ∈ (Notify w s).w.events := List.getElem?_mem hch
      rw [Notify_events] at hmem
      have hp := notifyLoop_completed_chans w w.events 0 s hex ch hmem
      simp only [wantsRefresh, hst.2, hst.1, hp, drain, Bool.or_self, Bool.false_or, beq_eq_false_iff_ne]
      omega
    refine ⟨by rw [Notify_trace, refreshed_eq_nil]; exact hquiet, ?_⟩
    rw [Notify_ret_none]
    cases hx : (notifyLoop (Notify w s).w 0 (Notify w s).w.events s2).exit with
    | completed => rfl
    | failed j e =>
      obtain ⟨pre, hpre, _⟩ := notifyLoop_failed _ _ 0 s2 j e hx
      have := hquiet (Step.refresh j (some e)) (by rw [hpre]; simp)
      simp [Step.isRefresh] at this
    | indexPanic =>
      refine absurd hx (notifyLoop_no_panic _ _ 0 s2 ?_)
      rw [Notify_listeners, Notify_events, notifyLoop_chans_length]
      omega

/-- C4 at a fresh watcher with two listeners that succeed. -/
theorem fresh_Notify_twice_witness :
    ListenAll emptyConfig plainFS (NewWatcher Nat String)
        [(okListener, ["/app"]), (goListener, ["/app", "/conf"])] = some freshPair ∧
      (Notify freshPair 0).ret = .returned none ∧
      refreshed (Notify freshPair 0).trace = List.range 2 ∧
      ∀ s2, refreshed (Notify (Notify freshPair 0).w s2).trace = [] ∧
        (Notify (Notify freshPair 0).w s2).ret = .returned none :=
  ⟨rfl,
    fresh_Notify_twice emptyConfig plainFS
      [(okListener, ["/app"]), (goListener, ["/app", "/conf"])] freshPair 0 rfl (by decide)⟩

/-- C4 as stated fails: on a fresh watcher with two listeners and no event
pending, the first of which fails, the first `Notify` call refreshes listener
`0` only, and the second call refreshes listener `0` again. -/
theorem fresh_Notify_twice_counterexample :
    (ListenAll emptyConfig plainFS (NewWatcher Nat String)
        [(brokenListener, ["/app"]), (okListener, ["/conf"])]).map
      (fun w => (w.events.map Chan.pending, refreshed (Notify w 0).trace,
        refreshed (Notify (Notify w 0).w (Notify w 0).s).trace))
      = some ([[], []], [0], [0]) := by
  rfl

/-- C5 (P3, error stickiness), as the code has it: when the `Refresh` of the
listener at index `i` fails during a `Notify` call, then in the next `Notify`
call, whatever events arrived in between (none, or none relevant to that
listener, included), either the `Refresh` of a listener of lower index fails,
which ends that call, or the `Refresh` of listener `i` is invoked; it is then
invoked after steps that concern indices up to `i` only and before every step
that concerns a listener of higher index. -/
theorem Notify_retries_failed {σ ε : Type} (w : Watcher σ ε) (s : σ) (e : ε)
    (h : (Notify w s).ret = .returned (some e)) (arrived : Nat → List EventInfo) (s2 : σ) :
    ∃ i : Nat, (Notify w s).w.lastError = (i : Int) ∧
      Step.refresh i (some e) ∈ (Notify w s).trace ∧
      ((∃ j e2, j < i ∧
          Step.refresh j (some e2) ∈ (Notify (arrive (Notify w s).w arrived) s2).trace) ∨
        ∃ pre r post,
          (Notify (arrive (Notify w s).w arrived) s2).trace = pre ++ Step.refresh i r :: post ∧
          (∀ st ∈ pre, st.idx ≤ i ∧ (st.isRefresh = true → st.idx < i)) ∧
          ∀ st ∈ post, i < st.idx) := by
  obtain ⟨i, hle, _, hmem, hev, hls⟩ := Notify_failed_index w s e h
  refine ⟨i, hle, hmem, ?_⟩
  have hlen2 : i < 0 + (arrive (Notify w s).w arrived).events.length := by
    simp only [arrive, arriveFrom_length, Notify_events, notifyLoop_chans_length]
    omega
  have hls2 : i < (arrive (Notify w s).w arrived).listeners.length := by
    simp only [arrive, Notify_listeners]; exact hls
  rw [Notify_trace]
  rcases notifyLoop_at (arrive (Notify w s).w arrived) _ 0 s2 i (Nat.zero_le _) hlen2 hls2 with
    ⟨j, e2, hj, hex⟩ | ⟨pre, post, l, ch, _, _, hpre, hpost, hcase⟩
  · left
    obtain ⟨pre, hpre, _⟩ := notifyLoop_failed _ _ 0 s2 j e2 hex
    exact ⟨j, e2, hj, by rw [hpre]; simp⟩
  · right
    have hw : wantsRefresh (arrive (Notify w s).w arrived) i l ch.pending = true :=
      wantsRefresh_lastError _ i l _ hle
    rcases hcase with ⟨_, r, htr⟩ | ⟨hno, _⟩
    · refine ⟨pre ++ ch.pending.map (Step.recv i), r, post, htr, ?_, hpost⟩
      intro st hst
      simp only [List.mem_append, List.mem_map] at hst
      rcases hst with hst | ⟨ev, _, rfl⟩
      · exact ⟨Nat.le_of_lt (hpre st hst).1, fun _ => (hpre st hst).1⟩
      · simp [Step.idx, Step.isRefresh]
    · rw [hw] at hno; cases hno

/-- C5 at a watcher whose second listener fails and is retried, with success,
in the next call although nothing arrived for it. -/
theorem Notify_retries_failed_witness :
    (Notify retryingWatcher 1).ret = .returned (some "template error") ∧
      ∃ i : Nat, (Notify retryingWatcher 1).w.lastError = (i : Int) ∧
        Step.refresh i (some "template error") ∈ (Notify retryingWatcher 1).trace ∧
        ((∃ j e2, j < i ∧ Step.refresh j (some e2) ∈
            (Notify (arrive (Notify retryingWatcher 1).w (fun _ => [])) 3).trace) ∨
          ∃ pre r post,
            (Notify (arrive (Notify retryingWatcher 1).w (fun _ => [])) 3).trace =
              pre ++ Step.refresh i r :: post ∧
            (∀ st ∈ pre, st.idx ≤ i ∧ (st.isRefresh = true → st.idx < i)) ∧
            ∀ st ∈ post, i < st.idx) :=
  ⟨rfl, Notify_retries_failed retryingWatcher 1 "template error" rfl (fun _ => []) 3⟩

/-- C5 as stated fails: on a fresh watcher the second listener fails in the
first `Notify` call; in the next call, with no new event, the first listener
is refreshed again (`forceRefresh` is still set), fails, and the listener that
failed before is not refreshed. -/
theorem Notify_retries_failed_counterexample :
    (Notify freshFlaky 0).ret = .returned (some "rebuild failed") ∧
      (Notify freshFlaky 0).w.lastError = 1 ∧
      refreshed (Notify freshFlaky 0).trace = [0, 1] ∧
      refreshed (Notify (Notify freshFlaky 0).w (Notify freshFlaky 0).s).trace = [0] ∧
      (Notify (Notify freshFlaky 0).w (Notify freshFlaky 0).s).ret
        = .returned (some "compile error") := by
  refine ⟨rfl, rfl, rfl, rfl, rfl⟩

/-- C6, as the code has it: in the state reached by a `Notify` call that
returned the error of listener `i`, if `forceRefresh` is false and no listener
of index below `i` has a relevant event pending when `Notify` is called next,
then the first `Refresh` that call invokes is that of listener `i`. -/
theorem Notify_retry_first {σ ε : Type} (w : Watcher σ ε) (s : σ) (e : ε)
    (h : (Notify w s).ret = .returned (some e)) (arrived : Nat → List EventInfo) (s2 : σ)
    (hforce : w.forceRefresh = false)
    (hquiet : ∀ (j : Nat) (l : Listener σ ε) (ch : Chan),
      (j : Int) < (Notify w s).w.lastError → w.listeners[j]? = some l →
      (arrive (Notify w s).w arrived).events[j]? = some ch →
      ∀ ev ∈ ch.pending, rebuildRequired ev l = false) :
    ∃ i : Nat, (Notify w s).w.lastError = (i : Int) ∧
      (refreshed (Notify (arrive (Notify w s).w arrived) s2).trace).head? = some i := by
  obtain ⟨i, hle, hf, _, hev, hls⟩ := Notify_failed_index w s e h
  refine ⟨i, hle, ?_⟩
  have hlen2 : i < 0 + (arrive (Notify w s).w arrived).events.length := by
    simp only [arrive, arriveFrom_length, Notify_events, notifyLoop_chans_length]
    omega
  have hls2 : i < (arrive (Notify w s).w arrived).listeners.length := by
    simp only [arrive, Notify_listeners]; exact hls
  -- no listener below `i` is refreshed
  have hlow : ∀ j r, j < i → Step.refresh j r ∉
      (notifyLoop (arrive (Notify w s).w arrived) 0
        (arrive (Notify w s).w arrived).events s2).trace := by
    intro j r hj hmem
    obtain ⟨l, ch, hl, hch, hw⟩ := notifyLoop_refresh_wants _ _ 0 s2 j r hmem
    have hl2 : w.listeners[j]? = some l := by
      simpa only [arrive, Notify_listeners] using hl
    have hq := hquiet j l ch (by rw [hle]; exact_mod_cast hj) hl2 (by simpa using hch)
    have hne : (arrive (Notify w s).w arrived).lastError ≠ (j : Int) := by
      show (Notify w s).w.lastError ≠ (j : Int)
      rw [hle]; intro hc; have := Int.ofNat_inj.1 hc; omega
    have hff : (arrive (Notify w s).w arrived).forceRefresh = false := by
      show (Notify w s).w.forceRefresh = false
      rw [hf, hforce]
    rw [wantsRefresh_false _ j l ch.pending hff hq hne] at hw
    cases hw
  rw [Notify_trace]
  rcases notifyLoop_at (arrive (Notify w s).w arrived) _ 0 s2 i (Nat.zero_le _) hlen2 hls2 with
    ⟨j, e2, hj, hex⟩ | ⟨pre, post, l, ch, _, _, hpre, hpost, hcase⟩
  · obtain ⟨pre, hpre, _⟩ := notifyLoop_failed _ _ 0 s2 j e2 hex
    exact absurd (by rw [hpre]; simp) (hlow j (some e2) hj)
  · have hw : wantsRefresh (arrive (Notify w s).w arrived) i l ch.pending = true :=
      wantsRefresh_lastError _ i l _ hle
    rcases hcase with ⟨_, r, htr⟩ | ⟨hno, _⟩
    · have hprenil : refreshed pre = [] := by
        rw [refreshed_eq_nil]
        intro st hst
        cases st with
        | recv j ev => rfl
        | refresh j r2 =>
          have hj : j < i := by simpa [Step.idx] using (hpre _ hst).1
          exact absurd (by rw [htr]; simp [hst]) (hlow j r2 hj)
      rw [htr]
      simp only [refreshed_append, refreshed_recv, hprenil, List.nil_append,
        refreshed_cons_refresh, List.head?_cons]
    · rw [hw] at hno; cases hno

/-- C6 at a watcher whose second listener failed: it is the first one
refreshed in the next call when nothing relevant arrived for the first. -/
theorem Notify_retry_first_witness :
    (Notify settledPair 0).ret = .returned (some "build failed") ∧
      ∃ i : Nat, (Notify settledPair 0).w.lastError = (i : Int) ∧
        (refreshed (Notify (arrive (Notify settledPair 0).w
          (fun _ => [⟨"/app/.main.go.swp"⟩])) 1).trace).head? = some i :=
  ⟨rfl, Notify_retry_first settledPair 0 "build failed" rfl (fun _ => [⟨"/app/.main.go.swp"⟩]) 1
    rfl (by
      intro j l ch hj hl hch ev hev
      have hj1 : j < 1 := by
        have : (Notify settledPair 0).w.lastError = 1 := rfl
        rw [this] at hj; exact_mod_cast hj
      obtain rfl : j = 0 := by omega
      have h1 : ch = ⟨[⟨"/app/.main.go.swp"⟩], ["/app/..."], false⟩ :=
        (Option.some.inj hch).symm
      subst h1
      simp only [List.mem_singleton] at hev
      subst hev
      have hl1 : l = okListener := (Option.some.inj hl).symm
      subst hl1
      decide)⟩

/-- C6 as stated fails: after the second listener failed, a relevant event
arrives for the first; the next `Notify` call refreshes the first listener
before the one that failed. -/
theorem Notify_retry_first_counterexample :
    (Notify settledPair 0).ret = .returned (some "build failed") ∧
      (Notify settledPair 0).w.lastError = 1 ∧
      rebuildRequired ⟨"/app/views/index.html"⟩ okListener = true ∧
      refreshed (Notify (emit (Notify settledPair 0).w 0 ⟨"/app/views/index.html"⟩)
        (Notify settledPair 0).s).trace = [0, 1] := by
  refine ⟨rfl, rfl, by decide, rfl⟩

/-- C7: `rebuildRequired(ev, l)` is true exactly when the base name of the
path of `ev` does not start with a dot and either `l` is not a
`DiscerningListener` or both `l.WatchDir(path.Base(path.Dir(p)))` and
`l.WatchFile(path.Base(p))` are true.  In particular a discerning listener
whose predicates both answer false does not have the event counted as
relevant, while a basic listener has it counted when the base name does not
start with a dot. -/
theorem rebuildRequired_iff {σ ε : Type} (ev : EventInfo) (l : Listener σ ε) :
    (rebuildRequired ev l = true ↔
        hasPrefixStr (pathBase ev.Path) "." = false ∧
          (l.discerning = none ∨
            ∃ dl, l.discerning = some dl ∧ dl.WatchDir (pathBase (pathDir ev.Path)) = true ∧
              dl.WatchFile (pathBase ev.Path) = true)) ∧
      (∀ dl, l.discerning = some dl → dl.WatchDir (pathBase (pathDir ev.Path)) = false →
        dl.WatchFile (pathBase ev.Path) = false → rebuildRequired ev l = false) ∧
      (l.discerning = none → hasPrefixStr (pathBase ev.Path) "." = false →
        rebuildRequired ev l = true) := by
  refine ⟨?_, ?_, ?_⟩
  · unfold rebuildRequired
    cases hdot : hasPrefixStr (pathBase ev.Path) "."
    · cases hd : l.discerning with
      | none => simp
      | some dl =>
        cases hdir : dl.WatchDir (pathBase (pathDir ev.Path)) <;>
          cases hfile : dl.WatchFile (pathBase ev.Path) <;> simp [hdir, hfile]
    · simp
  · intro dl hd hdir _
    simp [rebuildRequired, hd, hdir]
  · intro hd hdot
    simp [rebuildRequired, hd, hdot]

/-- C7 at a change to `notes.txt` in a directory `docs`: relevant to a basic
listener, not relevant to a discerning listener whose two predicates answer
false. -/
theorem rebuildRequired_iff_witness :
    rebuildRequired ⟨"/srv/docs/notes.txt"⟩ okListener = true ∧
      rebuildRequired ⟨"/srv/docs/notes.txt"⟩ appListener = false :=
  ⟨(rebuildRequired_iff ⟨"/srv/docs/notes.txt"⟩ okListener).2.2 rfl (by decide),
    (rebuildRequired_iff ⟨"/srv/docs/notes.txt"⟩ appListener).2.1 _ rfl (by decide) (by decide)⟩

/-- C8 (P5, dotfile filtering): an event whose path has a base name starting
with a dot causes no refresh, for any listener: `rebuildRequired` is false for
it; a `Notify` call on a state with `forceRefresh` false and `lastError` `-1`
whose pending events are all of that kind invokes no `Refresh`; and a round of
the dispatcher `NotifyWhenUpdated` that receives it invokes no `Refresh`. -/
theorem dotfile_never_refreshes {σ ε : Type} (ev : EventInfo) (listener : Listener σ ε)
    (hdot : hasPrefixStr (pathBase ev.Path) "." = true) :
    rebuildRequired ev listener = false ∧
      (∀ (w : Watcher σ ε) (s : σ), w.forceRefresh = false → w.lastError = -1 →
        (∀ ch ∈ w.events, ∀ ev2 ∈ ch.pending, hasPrefixStr (pathBase ev2.Path) "." = true) →
        refreshed (Notify w s).trace = []) ∧
      (∀ (w : Watcher σ ε) (s : σ) (i : Nat) (ch : Chan) (rest : List EventInfo),
        w.events[i]? = some ch → ch.pending = ev :: rest →
        ∃ w1, NotifyWhenUpdatedStep w listener i s = some (w1, s, [Step.recv i ev])) := by
  refine ⟨rebuildRequired_dotfile ev listener hdot, ?_, ?_⟩
  · intro w s hf hle hall
    rw [Notify_trace, refreshed_eq_nil]
    apply notifyLoop_quiet
    intro p l ch _ hch
    refine wantsRefresh_false w (0 + p) l ch.pending hf ?_ (by rw [hle]; omega)
    intro ev2 hev2
    exact rebuildRequired_dotfile ev2 l (hall ch (List.getElem?_mem hch) ev2 hev2)
  · intro w s i ch rest hch hp
    simp [NotifyWhenUpdatedStep, hch, hp, rebuildRequired_dotfile ev listener hdot]

/-- C8 at the swap file an editor writes next to `main.go`. -/
theorem dotfile_never_refreshes_witness :
    hasPrefixStr (pathBase "/app/.main.go.swp") "." = true ∧
      rebuildRequired ⟨"/app/.main.go.swp"⟩ goListener = false ∧
      refreshed (Notify (emit (emit (Notify freshPair 0).w 0 ⟨"/app/.main.go.swp"⟩) 1
        ⟨"/app/.main.go.swp"⟩) 2).trace = [] ∧
      ∃ w1, NotifyWhenUpdatedStep (emit (Notify freshPair 0).w 1 ⟨"/app/.main.go.swp"⟩)
        goListener 1 2 = some (w1, 2, [Step.recv 1 ⟨"/app/.main.go.swp"⟩]) :=
  ⟨by decide,
    (dotfile_never_refreshes ⟨"/app/.main.go.swp"⟩ goListener (by decide)).1,
    (dotfile_never_refreshes ⟨"/app/.main.go.swp"⟩ goListener (by decide)).2.1 _ 2 rfl rfl
      (by decide),
    (dotfile_never_refreshes ⟨"/app/.main.go.swp"⟩ goListener (by decide)).2.2 _ 2 1
      ⟨[⟨"/app/.main.go.swp"⟩], ["/app/...", "/conf/..."], false⟩ [] rfl rfl⟩

/-- C9 (coalescing and refresh decision): in one `Notify` call the `Refresh`
of each listener is invoked at most once, however many relevant events are
pending for it, and the listener at index `i` is refreshed exactly when no
`Refresh` of a listener below `i` failed in this call and, at entry,
`forceRefresh` is true, or an event pending in channel `i` satisfies
`rebuildRequired` for listener `i`, or `lastError` is `i`. -/
theorem Notify_refresh_decision {σ ε : Type} (w : Watcher σ ε) (s : σ) :
    (∀ k, (refreshed (Notify w s).trace).count k ≤ 1) ∧
      ∀ (i : Nat) (hi : i < w.events.length) (hl : i < w.listeners.length),
        ((∃ r, Step.refresh i r ∈ (Notify w s).trace) ↔
          (∀ j e, Step.refresh j (some e) ∈ (Notify w s).trace → i ≤ j) ∧
            (w.forceRefresh = true ∨
              (∃ ev ∈ (w.events[i]).pending, rebuildRequired ev (w.listeners[i]) = true) ∨
              w.lastError = (i : Int))) := by
  rw [Notify_trace]
  refine ⟨?_, ?_⟩
  · have hp := notifyLoop_refreshed_pairwise w w.events 0 s
    have hnd : (refreshed (notifyLoop w 0 w.events s).trace).Nodup :=
      hp.imp (fun h => Nat.ne_of_lt h)
    exact List.nodup_iff_count_le_one.1 hnd
  · intro i hi hl
    rcases notifyLoop_at w w.events 0 s i (Nat.zero_le _) (by omega) hl with
      ⟨j, e, hj, hex⟩ | ⟨pre, post, l, ch, hlk, hch, hpre, hpost, hcase⟩
    · -- a listener below `i` failed
      obtain ⟨pre, hpre, hall, _⟩ := notifyLoop_failed w w.events 0 s j e hex
      have hidx : ∀ st ∈ (notifyLoop w 0 w.events s).trace, st.idx ≤ j := by
        intro st hst
        rw [hpre] at hst
        simp only [List.mem_append, List.mem_singleton] at hst
        rcases hst with hst | rfl
        · exact (hall st hst).2.1
        · simp [Step.idx]
      constructor
      · rintro ⟨r, hr⟩
        have := hidx _ hr
        simp only [Step.idx] at this
        omega
      · rintro ⟨hno, _⟩
        have := hno j e (by rw [hpre]; simp)
        omega
    · -- the loop reaches listener `i`
      have hl2 : l = w.listeners[i] := by
        rw [List.getElem?_eq_getElem hl] at hlk
        exact (Option.some.inj hlk).symm
      have hch2 : ch = w.events[i] := by
        simp only [Nat.sub_zero] at hch
        rw [List.getElem?_eq_getElem hi] at hch
        exact (Option.some.inj hch).symm
      subst hl2 hch2
      rw [← wantsRefresh_iff]
      rcases hcase with ⟨hw, r, htr⟩ | ⟨hw, htr⟩
      · constructor
        · intro _
          refine ⟨?_, hw⟩
          intro j e hmem
          rw [htr] at hmem
          simp only [List.mem_append, List.mem_map, List.mem_cons] at hmem
          rcases hmem with (hmem | ⟨ev, _, h⟩) | h | hmem
          · have := (hpre _ hmem).2
            simp [Step.isFailure] at this
          · cases h
          · cases h; exact Nat.le_refl _
          · have := hpost _ hmem
            simp only [Step.idx] at this
            omega
        · intro _
          exact ⟨r, by rw [htr]; simp⟩
      · constructor
        · rintro ⟨r, hmem⟩
          rw [htr] at hmem
          simp only [List.mem_append, List.mem_map] at hmem
          rcases hmem with (hmem | ⟨ev, _, h⟩) | hmem
          · have := (hpre _ hmem).1
            simp only [Step.idx] at this
            omega
          · cases h
          · have := hpost _ hmem
            simp only [Step.idx] at this
            omega
        · rintro ⟨_, hw2⟩
          rw [hw] at hw2
          cases hw2

/-- C9 at a watcher with three relevant events pending for its first listener
and the second remembered as failed: each is refreshed, once. -/
theorem Notify_refresh_decision_witness :
    refreshed (Notify (emit (emit retryingWatcher 0 ⟨"/app/a.go"⟩) 0 ⟨"/app/b.go"⟩) 0).trace
        = [0, 1] ∧
      ((∃ r, Step.refresh 1 r ∈
          (Notify (emit (emit retryingWatcher 0 ⟨"/app/a.go"⟩) 0 ⟨"/app/b.go"⟩) 0).trace) ↔
        (∀ j e, Step.refresh j (some e) ∈
            (Notify (emit (emit retryingWatcher 0 ⟨"/app/a.go"⟩) 0 ⟨"/app/b.go"⟩) 0).trace →
            1 ≤ j) ∧
          ((emit (emit retryingWatcher 0 ⟨"/app/a.go"⟩) 0 ⟨"/app/b.go"⟩).forceRefresh = true ∨
            (∃ ev ∈ ([] : List EventInfo), rebuildRequired ev moodyListener = true) ∨
            (emit (emit retryingWatcher 0 ⟨"/app/a.go"⟩) 0 ⟨"/app/b.go"⟩).lastError
              = ((1 : Nat) : Int))) :=
  ⟨rfl,
    (Notify_refresh_decision (emit (emit retryingWatcher 0 ⟨"/app/a.go"⟩) 0 ⟨"/app/b.go"⟩) 0).2 1
      (by decide) (by decide)⟩

/-- C10 (scenario, basic and discerning listener on the same root), as the
code has it: on a watcher without listeners whose `forceRefresh` is false and
whose `lastError` is `-1` (such as a new watcher after a first `Notify` call),
after registering a basic listener `A` and then a discerning listener `B`
whose `WatchFile` answers false for `notes.txt`, with one event for a path
with base name `notes.txt` pending in the channel of each and the `Refresh` of
`A` succeeding, `Notify` refreshes `A`, does not refresh `B` and returns
`nil`. -/
theorem scenario_basic_and_discerning {σ ε : Type} (Config : MergedConfig) (fs : FileSystem)
    (w0 wA wB : Watcher σ ε) (A B : Listener σ ε) (dl : DiscerningListener)
    (rootsA rootsB : List String) (p : String) (s : σ)
    (h0e : w0.events = []) (h0l : w0.listeners = [])
    (hf : w0.forceRefresh = false) (hle : w0.lastError = -1)
    (hA : A.discerning = none) (hB : B.discerning = some dl)
    (hfile : dl.WatchFile "notes.txt" = false) (hp : pathBase p = "notes.txt")
    (hok : (A.Refresh s).1 = none)
    (hLA : Listen Config fs w0 A rootsA = some wA)
    (hLB : Listen Config fs wA B rootsB = some wB) :
    refreshed (Notify (emit (emit wB 0 ⟨p⟩) 1 ⟨p⟩) s).trace = [0] ∧
      (Notify (emit (emit wB 0 ⟨p⟩) 1 ⟨p⟩) s).ret = .returned none := by
  obtain ⟨chA, hpA, hevA, hlsA, hfA, hleA⟩ := Listen_some Config fs w0 wA A rootsA hLA
  obtain ⟨chB, hpB, hevB, hlsB, hfB, hleB⟩ := Listen_some Config fs wA wB B rootsB hLB
  rw [h0e] at hevA
  rw [h0l] at hlsA
  rw [hevA] at hevB
  rw [hlsA] at hlsB
  simp only [List.nil_append, List.singleton_append] at hevB hlsB
  have hnd : hasPrefixStr "notes.txt" "." = false := by decide
  have hrA : rebuildRequired ⟨p⟩ A = true := by
    simp [rebuildRequired, hp, hA, hnd]
  have hrB : rebuildRequired ⟨p⟩ B = false := by
    simp [rebuildRequired, hp, hB, hfile, hnd]
  have hev : (emit (emit wB 0 ⟨p⟩) 1 ⟨p⟩).events =
      [{ chA with pending := [⟨p⟩] }, { chB with pending := [⟨p⟩] }] := by
    simp [emit, hevB, hpA, hpB, List.modify, List.modifyHead, List.modifyTailIdx]
  have hls : (emit (emit wB 0 ⟨p⟩) 1 ⟨p⟩).listeners = [A, B] := hlsB
  have hff : (emit (emit wB 0 ⟨p⟩) 1 ⟨p⟩).forceRefresh = false := by
    show wB.forceRefresh = false
    rw [hfB, hfA, hf]
  have hll : (emit (emit wB 0 ⟨p⟩) 1 ⟨p⟩).lastError = -1 := by
    show wB.lastError = -1
    rw [hleB, hleA, hle]
  have hwA : wantsRefresh (emit (emit wB 0 ⟨p⟩) 1 ⟨p⟩) 0 A [⟨p⟩] = true := by
    simp [wantsRefresh, drain, hrA]
  have hwB : wantsRefresh (emit (emit wB 0 ⟨p⟩) 1 ⟨p⟩) (0 + 1) B [⟨p⟩] = false := by
    simp [wantsRefresh, drain, hrB, hff, hll]
  have hRA : A.Refresh s = (none, (A.Refresh s).2) := by
    rw [← hok]
  have hloop := notifyLoop_cons_ok (emit (emit wB 0 ⟨p⟩) 1 ⟨p⟩) 0
    { chA with pending := [⟨p⟩] } [{ chB with pending := [⟨p⟩] }] s (A.Refresh s).2 A
    (by rw [hls]; rfl) hwA hRA
  rw [notifyLoop_cons_skip (emit (emit wB 0 ⟨p⟩) 1 ⟨p⟩) (0 + 1) { chB with pending := [⟨p⟩] } []
    (A.Refresh s).2 B (by rw [hls]; rfl) hwB, notifyLoop_nil] at hloop
  refine ⟨?_, ?_⟩
  · rw [Notify_trace, hev, hloop]
    simp [refreshed, Step.isRefresh, Step.idx]
  · rw [Notify_ret_none, hev, hloop]

/-- C10 on a new watcher after a first `Notify` call, with a basic listener
and a discerning listener that watches `.go` files only. -/
theorem scenario_basic_and_discerning_witness :
    Listen emptyConfig plainFS (Notify (NewWatcher Nat String) 0).w okListener ["/app"]
        = some ⟨[⟨[], ["/app/..."], false⟩], [okListener], false, -1⟩ ∧
      Listen emptyConfig plainFS ⟨[⟨[], ["/app/..."], false⟩], [okListener], false, -1⟩
        goListener ["/app"]
        = some ⟨[⟨[], ["/app/..."], false⟩, ⟨[], ["/app/..."], false⟩],
            [okListener, goListener], false, -1⟩ ∧
      refreshed (Notify (emit (emit
          (⟨[⟨[], ["/app/..."], false⟩, ⟨[], ["/app/..."], false⟩],
            [okListener, goListener], false, -1⟩ : Watcher Nat String)
          0 ⟨"/app/notes.txt"⟩) 1 ⟨"/app/notes.txt"⟩) 0).trace = [0] ∧
      (Notify (emit (emit
          (⟨[⟨[], ["/app/..."], false⟩, ⟨[], ["/app/..."], false⟩],
            [okListener, goListener], false, -1⟩ : Watcher Nat String)
          0 ⟨"/app/notes.txt"⟩) 1 ⟨"/app/notes.txt"⟩) 0).ret = .returned none :=
  ⟨rfl, rfl,
    scenario_basic_and_discerning emptyConfig plainFS (Notify (NewWatcher Nat String) 0).w
      ⟨[⟨[], ["/app/..."], false⟩], [okListener], false, -1⟩
      ⟨[⟨[], ["/app/..."], false⟩, ⟨[], ["/app/..."], false⟩], [okListener, goListener], false, -1⟩
      okListener goListener
      { WatchDir := fun _ => true, WatchFile := fun f => ".go".data.isSuffixOf f.data }
      ["/app"] ["/app"] "/app/notes.txt" 0 rfl rfl rfl rfl rfl rfl (by decide) (by decide) rfl
      rfl rfl⟩

/-- C10 as stated fails on a new watcher: `forceRefresh` is still set when
`Notify` is first called, so the discerning listener is refreshed too, although
its `WatchFile` answers false for `notes.txt`. -/
theorem scenario_basic_and_discerning_counterexample :
    (goListener.discerning.map (fun dl => dl.WatchFile "notes.txt")) = some false ∧
      pathBase "/app/notes.txt" = "notes.txt" ∧
      (ListenAll emptyConfig plainFS (NewWatcher Nat String)
          [(okListener, ["/app"]), (goListener, ["/app"])]).map
        (fun w => refreshed
          (Notify (emit (emit w 0 ⟨"/app/notes.txt"⟩) 1 ⟨"/app/notes.txt"⟩) 0).trace)
        = some [0, 1] := by
  refine ⟨by decide, by decide, rfl⟩


/-! ## The claims on the filter, the configuration and the dispatcher -/

/-- C13: `WatchFilter`, for every controller and every non-empty filter chain
`f :: rest`: when `MainWatcher` is `nil`, or `MainWatcher.Notify` returns
`nil`, it invokes the next stage `fc[0](c, fc[1:])`, once, on a controller it
has not changed, and assigns nothing after it; when `Notify` returns an error
`e` it sets `c.Result` to `c.RenderError(e)` and invokes no filter. -/
theorem WatchFilter_contract {σ ε ρ γ φ : Type} (RenderError : Controller ρ γ → ε → ρ)
    (call : φ → List φ → Pipeline σ ε ρ γ → Pipeline σ ε ρ γ)
    (st : Pipeline σ ε ρ γ) (f : φ) (rest : List φ) :
    (st.MainWatcher = none →
        WatchFilter RenderError call st (f :: rest) =
          { st := call f rest st, invoked := [(f, rest)], ret := .returned () }) ∧
      (∀ w, st.MainWatcher = some w → (Notify w st.s).ret = .returned none →
        WatchFilter RenderError call st (f :: rest) =
          { st := call f rest
              { c := st.c, MainWatcher := some (Notify w st.s).w, s := (Notify w st.s).s },
            invoked := [(f, rest)], ret := .returned () }) ∧
      (∀ w e, st.MainWatcher = some w → (Notify w st.s).ret = .returned (some e) →
        WatchFilter RenderError call st (f :: rest) =
          { st := { c := { Result := RenderError st.c e, other := st.c.other },
                    MainWatcher := some (Notify w st.s).w, s := (Notify w st.s).s },
            invoked := [], ret := .returned () }) := by
  refine ⟨?_, ?_, ?_⟩
  · intro h
    simp only [WatchFilter, h]
  · intro w hw hret
    simp only [WatchFilter, hw, hret]
  · intro w e hw hret
    simp only [WatchFilter, hw, hret]

/-- C13 at a chain of two filters, named by numbers; a filter leaves its name
in the controller.  With a watcher whose cycle succeeds the first filter is
invoked; with one whose cycle fails the error is rendered and no filter is
invoked. -/
theorem WatchFilter_contract_witness :
    (WatchFilter (fun _ e => e) (fun f _ p => { p with c := { p.c with other := f } })
        (⟨⟨"", 0⟩, some retryingWatcher, 0⟩ : Pipeline Nat String String Nat)
        [7, 8]).invoked = [(7, [8])] ∧
      (WatchFilter (fun _ e => e) (fun f _ p => { p with c := { p.c with other := f } })
        (⟨⟨"", 0⟩, some retryingWatcher, 1⟩ : Pipeline Nat String String Nat)
        [7, 8]).st.c = ⟨"template error", 0⟩ ∧
      (WatchFilter (fun _ e => e) (fun f _ p => { p with c := { p.c with other := f } })
        (⟨⟨"", 0⟩, some retryingWatcher, 1⟩ : Pipeline Nat String String Nat)
        [7, 8]).invoked = [] :=
  ⟨congrArg FilterResult.invoked
      ((WatchFilter_contract (fun _ e => e)
        (fun f _ p => { p with c := { p.c with other := f } })
        (⟨⟨"", 0⟩, some retryingWatcher, 0⟩ : Pipeline Nat String String Nat) 7 [8]).2.1
        retryingWatcher rfl rfl),
    congrArg (fun r => r.st.c)
      ((WatchFilter_contract (fun _ e => e)
        (fun f _ p => { p with c := { p.c with other := f } })
        (⟨⟨"", 0⟩, some retryingWatcher, 1⟩ : Pipeline Nat String String Nat) 7 [8]).2.2
        retryingWatcher "template error" rfl rfl),
    congrArg FilterResult.invoked
      ((WatchFilter_contract (fun _ e => e)
        (fun f _ p => { p with c := { p.c with other := f } })
        (⟨⟨"", 0⟩, some retryingWatcher, 1⟩ : Pipeline Nat String String Nat) 7 [8]).2.2
        retryingWatcher "template error" rfl rfl)⟩

/-- C14: `eagerRebuildEnabled` is true exactly when `mode.dev` is true (true
when unset), `watch` is true (true when unset) and `watcher.mode` is `eager`
(`normal` when unset).  With nothing set it is false; with `watcher.mode` set
to `eager` and nothing else set it is true. -/
theorem eagerRebuildEnabled_iff (Config : MergedConfig) :
    (eagerRebuildEnabled Config = true ↔
        (Config.boolOption "mode.dev").getD true = true ∧
          (Config.boolOption "watch").getD true = true ∧
          (Config.stringOption "watcher.mode").getD "normal" = "eager") ∧
      eagerRebuildEnabled emptyConfig = false ∧
      eagerRebuildEnabled eagerConfig = true := by
  refine ⟨?_, by decide, by decide⟩
  simp [eagerRebuildEnabled, MergedConfig.BoolDefault, MergedConfig.StringDefault, and_assoc]

/-- A round of the dispatcher changes neither `lastError` nor `forceRefresh`
nor the listeners, whatever the `Refresh` it invokes returns. -/
theorem NotifyWhenUpdatedStep_fields {σ ε : Type} (w w1 : Watcher σ ε) (listener : Listener σ ε)
    (i : Nat) (s s1 : σ) (tr : List (Step ε))
    (h : NotifyWhenUpdatedStep w listener i s = some (w1, s1, tr)) :
    w1.lastError = w.lastError ∧ w1.forceRefresh = w.forceRefresh ∧
      w1.listeners = w.listeners ∧ w1.events.length = w.events.length := by
  unfold NotifyWhenUpdatedStep at h
  split at h
  · cases h
  · split at h
    · cases h
    · split at h <;>
      · simp only [Option.some.injEq, Prod.mk.injEq] at h
        obtain ⟨rfl, _, _⟩ := h
        simp

/-- C16 fails on the code: a round of the dispatcher on a relevant event whose
`Refresh` returns an error leaves `lastError` at `-1`, and the next `Notify`
call, with nothing pending, invokes no `Refresh` and returns `nil`. -/
theorem dispatcher_drops_error :
    (NotifyWhenUpdatedStep settledBroken brokenListener 0 0).map
        (fun r => (r.2.2, r.1.lastError, (r.1.events.map Chan.pending),
          refreshed (Notify r.1 r.2.1).trace, (Notify r.1 r.2.1).ret))
      = some ([Step.recv 0 ⟨"/app/main.go"⟩, Step.refresh 0 (some "rebuild failed")],
          -1, [[]], [], .returned none) := by
  rfl

/-- C17: a round of the dispatcher `NotifyWhenUpdated` that receives the event
`ev` invokes the `Refresh` of its listener once when `rebuildRequired(ev,
listener)` is true and not at all otherwise; this is the rule by which
`Notify` decides for a listener that is neither forced nor remembered as
failed and has `ev` pending. -/
theorem dispatcher_round {σ ε : Type} (w : Watcher σ ε) (listener : Listener σ ε) (i : Nat)
    (s : σ) (ch : Chan) (ev : EventInfo) (rest : List EventInfo)
    (hch : w.events[i]? = some ch) (hp : ch.pending = ev :: rest) :
    ∃ w1 s1 tr, NotifyWhenUpdatedStep w listener i s = some (w1, s1, tr) ∧
      refreshed tr = (if rebuildRequired ev listener = true then [i] else []) ∧
      (rebuildRequired ev listener = true →
        s1 = (listener.Refresh s).2 ∧
          tr = [Step.recv i ev, Step.refresh i (listener.Refresh s).1]) ∧
      (rebuildRequired ev listener = false → s1 = s ∧ tr = [Step.recv i ev]) ∧
      (w.forceRefresh = false → w.lastError ≠ (i : Int) →
        wantsRefresh w i listener [ev] = rebuildRequired ev listener) := by
  have hw : w.forceRefresh = false → w.lastError ≠ (i : Int) →
      wantsRefresh w i listener [ev] = rebuildRequired ev listener := by
    intro hf hle
    cases hr : rebuildRequired ev listener <;> simp [wantsRefresh, drain, hf, hle, hr]
  cases hr : rebuildRequired ev listener with
  | true =>
    refine ⟨_, _, _, by simp only [NotifyWhenUpdatedStep, hch, hp, hr, if_true]; rfl, ?_, ?_, ?_,
      fun hf hle => (hw hf hle).trans hr⟩
    · simp [refreshed, Step.isRefresh, Step.idx]
    · intro _; exact ⟨rfl, rfl⟩
    · intro h; cases h
  | false =>
    refine ⟨_, _, _,
      by simp only [NotifyWhenUpdatedStep, hch, hp, hr, Bool.false_eq_true, if_false]; rfl,
      ?_, ?_, ?_, fun hf hle => (hw hf hle).trans hr⟩
    · simp [refreshed, Step.isRefresh]
    · intro h; cases h
    · intro _; exact ⟨rfl, rfl⟩

/-- C17 at a change to `main.go` received by the dispatcher of a listener that
watches `.go` files. -/
theorem dispatcher_round_witness :
    ∃ w1 s1 tr, NotifyWhenUpdatedStep settledPair goListener 1 0 = some (w1, s1, tr) ∧
      refreshed tr = (if rebuildRequired ⟨"/app/main.go"⟩ goListener = true then [1] else []) ∧
      (rebuildRequired ⟨"/app/main.go"⟩ goListener = true →
        s1 = (goListener.Refresh 0).2 ∧
          tr = [Step.recv 1 ⟨"/app/main.go"⟩, Step.refresh 1 (goListener.Refresh 0).1]) ∧
      (rebuildRequired ⟨"/app/main.go"⟩ goListener = false →
        s1 = 0 ∧ tr = [Step.recv 1 ⟨"/app/main.go"⟩]) ∧
      (settledPair.forceRefresh = false → settledPair.lastError ≠ ((1 : Nat) : Int) →
        wantsRefresh settledPair 1 goListener [⟨"/app/main.go"⟩]
          = rebuildRequired ⟨"/app/main.go"⟩ goListener) :=
  dispatcher_round settledPair goListener 1 0 ⟨[⟨"/app/main.go"⟩], ["/app/..."], false⟩
    ⟨"/app/main.go"⟩ [] rfl rfl

/-! ## The retry scenario -/

/-- When the first listener fails in a `Notify` call, the call returns its
error, only the first channel is drained, and `lastError` is `0`. -/
theorem Notify_first_fails {σ ε : Type} (w : Watcher σ ε) (A : Listener σ ε)
    (ls : List (Listener σ ε)) (chA : Chan) (chs : List Chan) (s : σ) (e : ε)
    (hl : w.listeners = A :: ls) (hev : w.events = chA :: chs)
    (hfail : Step.refresh 0 (some e) ∈ (Notify w s).trace) :
    (Notify w s).ret = .returned (some e) ∧
      (Notify w s).w.events = { chA with pending := [] } :: chs ∧
      (Notify w s).w.lastError = 0 ∧
      (Notify w s).w.forceRefresh = w.forceRefresh := by
  have hl0 : w.listeners[0]? = some A := by rw [hl]; simp
  rw [Notify_trace] at hfail
  have hex := notifyLoop_failure_mem w _ 0 s 0 e hfail
  have hst := Notify_state_failed w s 0 e hex
  refine ⟨(Notify_ret_some w s e).2 ⟨0, hex⟩, ?_, by simpa using hst.1, hst.2⟩
  rw [Notify_events]
  rw [hev] at hfail ⊢
  have above : ∀ s1, Step.refresh 0 (some e) ∉ (notifyLoop w (0 + 1) chs s1).trace := by
    intro s1 hm
    have := (notifyLoop_idx w chs (0 + 1) s1 _ hm).1
    simp [Step.idx] at this
  cases hc : wantsRefresh w 0 A chA.pending with
  | false =>
    rw [notifyLoop_cons_skip w 0 chA chs s A hl0 hc] at hfail
    simp only [List.mem_append, List.mem_map] at hfail
    rcases hfail with ⟨ev, _, h⟩ | h
    · cases h
    · exact absurd h (above s)
  | true =>
    rcases hr : A.Refresh s with ⟨_ | err, s1⟩
    · rw [notifyLoop_cons_ok w 0 chA chs s s1 A hl0 hc hr] at hfail
      simp only [List.mem_append, List.mem_map, List.mem_cons] at hfail
      rcases hfail with ⟨ev, _, h⟩ | h | h
      · cases h
      · cases h
      · exact absurd h (above s1)
    · rw [notifyLoop_cons_fail w 0 chA chs s s1 A err hl0 hc hr]

/-- C11 (scenario, retry after failure), as the code has it: with `A`
registered before `B`, if the `Refresh` of `A` returns an error `e` then
`Notify` returns `e`; in the `Notify` call that follows, with no new event, `A`
is refreshed again before any other listener, and `B` is refreshed in that
call exactly when the `Refresh` of `A` now succeeds and `forceRefresh` is set
or a relevant event is pending for `B`. -/
theorem scenario_retry_after_failure {σ ε : Type} (w : Watcher σ ε) (A B : Listener σ ε)
    (ls : List (Listener σ ε)) (chA chB : Chan) (chs : List Chan) (s : σ) (e : ε)
    (hl : w.listeners = A :: B :: ls) (hev : w.events = chA :: chB :: chs)
    (hfail : Step.refresh 0 (some e) ∈ (Notify w s).trace) :
    (Notify w s).ret = .returned (some e) ∧
      ∀ s2, (refreshed (Notify (Notify w s).w s2).trace).head? = some 0 ∧
        (1 ∈ refreshed (Notify (Notify w s).w s2).trace ↔
          (A.Refresh s2).1 = none ∧
            (w.forceRefresh = true ∨ ∃ ev ∈ chB.pending, rebuildRequired ev B = true)) := by
  obtain ⟨hret, hev1, hle1, hf1⟩ := Notify_first_fails w A (B :: ls) chA (chB :: chs) s e hl hev hfail
  refine ⟨hret, ?_⟩
  intro s2
  have hls1 : (Notify w s).w.listeners = A :: B :: ls := by rw [Notify_listeners, hl]
  have hA : (Notify w s).w.listeners[0]? = some A := by rw [hls1]; simp
  have hB : (Notify w s).w.listeners[0 + 1]? = some B := by rw [hls1]; simp
  have hwA : wantsRefresh (Notify w s).w 0 A ({ chA with pending := [] } : Chan).pending = true :=
    wantsRefresh_lastError _ 0 A _ (by simpa using hle1)
  have hwB : wantsRefresh (Notify w s).w (0 + 1) B chB.pending = true ↔
      (w.forceRefresh = true ∨ ∃ ev ∈ chB.pending, rebuildRequired ev B = true) := by
    rw [wantsRefresh_iff, hf1, hle1]
    constructor
    · rintro (h | h | h)
      · exact Or.inl h
      · exact Or.inr h
      · simp at h
    · rintro (h | h)
      · exact Or.inl h
      · exact Or.inr (Or.inl h)
  have above : ∀ s1, 1 ∉ refreshed (notifyLoop (Notify w s).w (0 + 1 + 1) chs s1).trace := by
    intro s1 hm
    obtain ⟨r, hr⟩ := (mem_refreshed _ 1).1 hm
    have := (notifyLoop_idx _ chs (0 + 1 + 1) s1 _ hr).1
    simp [Step.idx] at this
  rw [Notify_trace, hev1]
  rcases hr : A.Refresh s2 with ⟨_ | e2, s3⟩
  · rw [notifyLoop_cons_ok _ 0 _ (chB :: chs) s2 s3 A hA hwA hr]
    simp only [List.map_nil, List.nil_append, refreshed_cons_refresh, List.head?_cons,
      List.mem_cons, true_and]
    have h10 : (1 : Nat) ≠ 0 := by decide
    simp only [h10, false_or]
    rw [← hwB]
    cases hc : wantsRefresh (Notify w s).w (0 + 1) B chB.pending with
    | false =>
      rw [notifyLoop_cons_skip _ (0 + 1) chB chs s3 B hB hc]
      simp only [refreshed_append, refreshed_recv, List.nil_append]
      constructor
      · intro h; exact absurd h (above s3)
      · intro h; cases h
    | true =>
      rcases hr2 : B.Refresh s3 with ⟨_ | e3, s4⟩
      · rw [notifyLoop_cons_ok _ (0 + 1) chB chs s3 s4 B hB hc hr2]
        simp [refreshed_append, refreshed_recv, refreshed_cons_refresh]
      · rw [notifyLoop_cons_fail _ (0 + 1) chB chs s3 s4 B e3 hB hc hr2]
        simp [refreshed_append, refreshed_recv, refreshed_cons_refresh]
  · rw [notifyLoop_cons_fail _ 0 _ (chB :: chs) s2 s3 A e2 hA hwA hr]
    simp [refreshed, Step.isRefresh, Step.idx]

/-- C11 at a fresh watcher whose first listener fails once: the next call
refreshes it first and then, `forceRefresh` being still set, the second. -/
theorem scenario_retry_after_failure_witness :
    Step.refresh 0 (some "rebuild failed") ∈ (Notify freshRecovering 0).trace ∧
      (Notify freshRecovering 0).ret = .returned (some "rebuild failed") ∧
      ∀ s2, (refreshed (Notify (Notify freshRecovering 0).w s2).trace).head? = some 0 ∧
        (1 ∈ refreshed (Notify (Notify freshRecovering 0).w s2).trace ↔
          (recoveringListener.Refresh s2).1 = none ∧
            (freshRecovering.forceRefresh = true ∨
              ∃ ev ∈ ([] : List EventInfo), rebuildRequired ev okListener = true)) :=
  ⟨List.mem_singleton.2 rfl,
    scenario_retry_after_failure freshRecovering recoveringListener okListener []
      ⟨[], ["/app/..."], false⟩ ⟨[], ["/conf/..."], false⟩ [] 0 "rebuild failed" rfl rfl
      (List.mem_singleton.2 rfl)⟩

/-- C11 as stated fails: on a fresh watcher whose first listener fails once,
the next `Notify` call, with no event pending for any listener, refreshes the
second listener too. -/
theorem scenario_retry_after_failure_counterexample :
    (Notify freshRecovering 0).ret = .returned (some "rebuild failed") ∧
      (Notify freshRecovering 0).w.events.map Chan.pending = [[], []] ∧
      refreshed (Notify (Notify freshRecovering 0).w (Notify freshRecovering 0).s).trace
        = [0, 1] := by
  refine ⟨rfl, rfl, rfl⟩

/-! ## Draining -/

theorem received_append {ε : Type} (a b : List (Step ε)) :
    received (a ++ b) = received a ++ received b := by
  induction a with
  | nil => rfl
  | cons st rest ih =>
    cases st with
    | recv i ev => simp [received, ih]
    | refresh i r => simp [received, ih]

theorem received_recv {ε : Type} (i : Nat) (evs : List EventInfo) :
    received (evs.map (Step.recv (ε := ε) i)) = evs.map (fun ev => (i, ev)) := by
  induction evs with
  | nil => rfl
  | cons ev rest ih => simp [received, ih]

theorem pendingFrom_append (a b : List Chan) :
    ∀ i, pendingFrom i (a ++ b) = pendingFrom i a ++ pendingFrom (i + a.length) b := by
  induction a with
  | nil => intro i; simp [pendingFrom]
  | cons ch rest ih =>
    intro i
    have harith : i + 1 + rest.length = i + (rest.length + 1) := by omega
    show ch.pending.map (fun ev => (i, ev)) ++ pendingFrom (i + 1) (rest ++ b) = _
    rw [ih (i + 1), harith]
    simp only [pendingFrom, List.append_assoc, List.length_cons]

/-- The loop drains a first part of the channels it ranges over and leaves the
others as they are: all of them when it runs to completion, those up to the
listener that failed otherwise.  What it receives is what was pending in the
channels it drained, each event once. -/
theorem notifyLoop_drained {σ ε : Type} (w : Watcher σ ε) (todo : List Chan) :
    ∀ (i0 : Nat) (s : σ), ∃ n, n ≤ todo.length ∧
      (notifyLoop w i0 todo s).chans =
        (todo.take n).map (fun ch => { ch with pending := [] }) ++ todo.drop n ∧
      received (notifyLoop w i0 todo s).trace = pendingFrom i0 (todo.take n) ∧
      ((notifyLoop w i0 todo s).exit = .completed → n = todo.length) ∧
      (∀ j e, (notifyLoop w i0 todo s).exit = .failed j e → i0 + n = j + 1) := by
  induction todo with
  | nil =>
    intro i0 s
    exact ⟨0, by simp, by simp [notifyLoop], by simp [notifyLoop, received, pendingFrom],
      by simp, by simp [notifyLoop]⟩
  | cons eventCh todo ih =>
    intro i0 s
    cases hl : w.listeners[i0]? with
    | none =>
      rw [notifyLoop_cons_panic w i0 eventCh todo s hl]
      exact ⟨0, by simp, by simp, by simp [received, pendingFrom], by simp, by simp⟩
    | some l =>
      cases hc : wantsRefresh w i0 l eventCh.pending with
      | false =>
        rw [notifyLoop_cons_skip w i0 eventCh todo s l hl hc]
        obtain ⟨n, hn, hch, hrec, hcomp, hfail⟩ := ih (i0 + 1) s
        refine ⟨n + 1, by simp; omega, by simp [hch], ?_, ?_, ?_⟩
        · simp [received_append, received_recv, hrec, pendingFrom]
        · intro h; simp [hcomp h]
        · intro j e h; have := hfail j e h; omega
      | true =>
        rcases hr : l.Refresh s with ⟨_ | err, s1⟩
        · rw [notifyLoop_cons_ok w i0 eventCh todo s s1 l hl hc hr]
          obtain ⟨n, hn, hch, hrec, hcomp, hfail⟩ := ih (i0 + 1) s1
          refine ⟨n + 1, by simp; omega, by simp [hch], ?_, ?_, ?_⟩
          · simp [received_append, received_recv, received, hrec, pendingFrom]
          · intro h; simp [hcomp h]
          · intro j e h; have := hfail j e h; omega
        · rw [notifyLoop_cons_fail w i0 eventCh todo s s1 l err hl hc hr]
          refine ⟨1, by simp, by simp, ?_, by simp, ?_⟩
          · simp [received_append, received_recv, received, pendingFrom]
          · intro j e h
            simp only [LoopExit.failed.injEq] at h
            omega

/-- C19 (draining): `Notify` handles every finite content of the channels and
takes each pending event at most once: what it receives is a first part of what
was pending, channel after channel.  When it returns `nil` every channel is
empty and everything that was pending was received.  When it returns the error
of listener `i`, the channels at indices `0..i` are empty, whatever was in them
and whether or not their listener was refreshed, while the channels at indices
above `i` hold what they held at entry.  With a listener for every channel
`Notify` returns. -/
theorem Notify_drains {σ ε : Type} (w : Watcher σ ε) (s : σ) :
    (Notify w s).w.events.length = w.events.length ∧
      received (Notify w s).trace <+: pendingFrom 0 w.events ∧
      ((Notify w s).ret = .returned none →
        (∀ ch ∈ (Notify w s).w.events, ch.pending = []) ∧
          received (Notify w s).trace = pendingFrom 0 w.events) ∧
      (∀ e, (Notify w s).ret = .returned (some e) →
        ∃ i : Nat, (Notify w s).w.lastError = (i : Int) ∧ i < w.events.length ∧
          (∀ j ch, j ≤ i → (Notify w s).w.events[j]? = some ch → ch.pending = []) ∧
          (∀ j, i < j → (Notify w s).w.events[j]? = w.events[j]?) ∧
          received (Notify w s).trace = pendingFrom 0 (w.events.take (i + 1))) ∧
      (w.events.length ≤ w.listeners.length → ∃ r, (Notify w s).ret = .returned r) := by
  obtain ⟨n, hn, hch, hrec, hcomp, hfail⟩ := notifyLoop_drained w w.events 0 s
  refine ⟨by rw [Notify_events, notifyLoop_chans_length], ?_, ?_, ?_, ?_⟩
  · rw [Notify_trace, hrec]
    have h := pendingFrom_append (w.events.take n) (w.events.drop n) 0
    rw [List.take_append_drop] at h
    rw [h]
    exact List.prefix_append _ _
  · intro hret
    have hex := (Notify_ret_none w s).1 hret
    refine ⟨?_, ?_⟩
    · rw [Notify_events]
      exact notifyLoop_completed_chans w w.events 0 s hex
    · rw [Notify_trace, hrec, hcomp hex, List.take_length]
  · intro e hret
    obtain ⟨i, hi⟩ := (Notify_ret_some w s e).1 hret
    have hni : n = i + 1 := by have := hfail i e hi; omega
    subst hni
    have hlen : ((w.events.take (i + 1)).map
        (fun ch : Chan => ({ ch with pending := [] } : Chan))).length = i + 1 := by
      simp only [List.length_map, List.length_take]; omega
    refine ⟨i, (Notify_state_failed w s i e hi).1, by omega, ?_, ?_, by rw [Notify_trace, hrec]⟩
    · intro j ch hj hget
      rw [Notify_events, hch, List.getElem?_append_left (by omega)] at hget
      have hmem := List.getElem?_mem hget
      simp only [List.mem_map] at hmem
      obtain ⟨c, _, rfl⟩ := hmem
      rfl
    · intro j hj
      rw [Notify_events, hch, List.getElem?_append_right (by omega), hlen, List.getElem?_drop]
      congr 1
      omega
  · intro hlen
    cases hx : (Notify w s).ret with
    | returned r => exact ⟨r, rfl⟩
    | panicked =>
      exfalso
      have hnp := notifyLoop_no_panic w w.events 0 s (by omega)
      unfold Notify at hx
      dsimp only at hx
      split at hx
      · cases hx
      · cases hx
      · rename_i h; exact hnp h

/-- C19 at a watcher with events pending in both of its channels whose second
listener fails: `Notify` returns, and has received every event once. -/
theorem Notify_drains_witness :
    (∃ r, (Notify (emit (emit retryingWatcher 0 ⟨"/app/.swp"⟩) 1 ⟨"/conf/.swp"⟩) 1).ret
        = .returned r) ∧
      (Notify (emit (emit retryingWatcher 0 ⟨"/app/.swp"⟩) 1 ⟨"/conf/.swp"⟩) 1).ret
        = .returned (some "template error") ∧
      received (Notify (emit (emit retryingWatcher 0 ⟨"/app/.swp"⟩) 1 ⟨"/conf/.swp"⟩) 1).trace
        = [(0, ⟨"/app/main.go"⟩), (0, ⟨"/app/.swp"⟩), (1, ⟨"/conf/.swp"⟩)] :=
  ⟨(Notify_drains (emit (emit retryingWatcher 0 ⟨"/app/.swp"⟩) 1 ⟨"/conf/.swp"⟩) 1).2.2.2.2
      (by decide),
    rfl, rfl⟩

/-! ## What holds in every reachable state -/

theorem Notify_no_panic {σ ε : Type} (w : Watcher σ ε) (s : σ)
    (hlen : w.events.length ≤ w.listeners.length) : (Notify w s).ret ≠ .panicked := by
  intro hx
  have hnp := notifyLoop_no_panic w w.events 0 s (by omega)
  unfold Notify at hx
  dsimp only at hx
  split at hx
  · cases hx
  · cases hx
  · rename_i h; exact hnp h

theorem emit_fields {σ ε : Type} (w : Watcher σ ε) (i : Nat) (ev : EventInfo) :
    (emit w i ev).events.length = w.events.length ∧ (emit w i ev).listeners = w.listeners ∧
      (emit w i ev).lastError = w.lastError ∧ (emit w i ev).forceRefresh = w.forceRefresh := by
  simp [emit]

theorem Sys.init_inv {σ ε : Type} (s : σ) : (Sys.init s : Sys σ ε).Inv := by
  simp [Sys.Inv, Sys.init, NewWatcher]

theorem Sys.step_inv {σ ε : Type} (st st1 : Sys σ ε) (op : Op σ ε) (hinv : st.Inv)
    (h : st.step op = some st1) : st1.Inv := by
  obtain ⟨hlen, hle, hforce, hrets⟩ := hinv
  cases op with
  | listen Config fs listener roots =>
    simp only [Sys.step] at h
    split at h
    · cases h
    · rename_i w1 hw1
      cases h
      obtain ⟨ch, _, hev, hls, hf, hl⟩ := Listen_some Config fs st.w w1 listener roots hw1
      refine ⟨by simp [hev, hls, hlen], ?_, by simpa [hf] using hforce, hrets⟩
      simp only [hl, hls, List.length_append, List.length_singleton]
      rcases hle with h1 | ⟨h1, h2⟩
      · exact Or.inl h1
      · exact Or.inr ⟨h1, by push_cast; omega⟩
  | produce i ev =>
    simp only [Sys.step, Option.some.injEq] at h
    cases h
    obtain ⟨h1, h2, h3, h4⟩ := emit_fields st.w i ev
    exact ⟨by simp only [h1, h2, hlen], by simpa only [h2, h3] using hle,
      by simpa only [h4] using hforce, hrets⟩
  | notify =>
    simp only [Sys.step, Option.some.injEq] at h
    cases h
    have hnp := Notify_no_panic st.w st.s (by omega)
    refine ⟨by simp only [Notify_events, notifyLoop_chans_length, Notify_listeners, hlen],
      ?_, ?_, ?_⟩
    · simp only [Notify_listeners]
      cases hx : (Notify st.w st.s).ret with
      | panicked => exact absurd hx hnp
      | returned r =>
        cases r with
        | none => exact Or.inl (Notify_state_completed st.w st.s ((Notify_ret_none _ _).1 hx)).1
        | some e =>
          obtain ⟨i, hi, _, _, _, hil⟩ := Notify_failed_index st.w st.s e hx
          exact Or.inr ⟨by rw [hi]; omega, by rw [hi]; exact_mod_cast hil⟩
    · cases hx : (Notify st.w st.s).ret with
      | panicked => exact absurd hx hnp
      | returned r =>
        cases r with
        | none =>
          have := (Notify_state_completed st.w st.s ((Notify_ret_none _ _).1 hx)).2
          simp [this]
        | some e =>
          obtain ⟨i, hi⟩ := (Notify_ret_some st.w st.s e).1 hx
          rw [(Notify_state_failed st.w st.s i e hi).2, hforce]
          constructor
          · intro h r hr
            simp only [List.mem_append, List.mem_singleton] at hr
            rcases hr with hr | rfl
            · exact h r hr
            · simp
          · intro h r hr
            exact h r (List.mem_append_left _ hr)
    · intro r hr
      simp only [List.mem_append, List.mem_singleton] at hr
      rcases hr with hr | rfl
      · exact hrets r hr
      · exact hnp
  | dispatch listener i =>
    simp only [Sys.step] at h
    split at h
    · cases h
    · rename_i w1 s1 tr hw1
      cases h
      obtain ⟨h1, h2, h3, h4⟩ := NotifyWhenUpdatedStep_fields st.w w1 listener i st.s s1 tr hw1
      exact ⟨by simp only [h3, h4, hlen], by simpa only [h1, h3] using hle,
        by simpa only [h2] using hforce, hrets⟩
  | app f =>
    simp only [Sys.step, Option.some.injEq] at h
    cases h
    exact ⟨hlen, hle, hforce, hrets⟩

theorem Sys.run_inv {σ ε : Type} (ops : List (Op σ ε)) :
    ∀ (st st1 : Sys σ ε), st.Inv → st.run ops = some st1 → st1.Inv := by
  induction ops with
  | nil =>
    intro st st1 hinv h
    simp only [Sys.run, Option.some.injEq] at h
    exact h ▸ hinv
  | cons op ops ih =>
    intro st st1 hinv h
    simp only [Sys.run] at h
    split at h
    · cases h
    · rename_i st2 h2
      exact ih st2 st1 (Sys.step_inv st st2 op hinv h2) h

/-- No operation sets `forceRefresh` back to true. -/
theorem Sys.step_forceRefresh {σ ε : Type} (st st1 : Sys σ ε) (op : Op σ ε)
    (h : st.step op = some st1) (hf : st.w.forceRefresh = false) :
    st1.w.forceRefresh = false := by
  cases op with
  | listen Config fs listener roots =>
    simp only [Sys.step] at h
    split at h
    · cases h
    · rename_i w1 hw1
      cases h
      obtain ⟨ch, _, _, _, hf1, _⟩ := Listen_some Config fs st.w w1 listener roots hw1
      simpa [hf1] using hf
  | produce i ev =>
    simp only [Sys.step, Option.some.injEq] at h
    cases h
    exact hf
  | notify =>
    simp only [Sys.step, Option.some.injEq] at h
    cases h
    show (Notify st.w st.s).w.forceRefresh = false
    unfold Notify
    dsimp only
    split <;> simp [hf]
  | dispatch listener i =>
    simp only [Sys.step] at h
    split at h
    · cases h
    · rename_i w1 s1 tr hw1
      cases h
      rw [(NotifyWhenUpdatedStep_fields st.w w1 listener i st.s s1 tr hw1).2.1]
      exact hf
  | app f =>
    simp only [Sys.step, Option.some.injEq] at h
    cases h
    exact hf

/-- The loop over the roots of `Listen` panics only on a symbolic link that
cannot be resolved. -/
theorem listenRoots_isSome (fs : FileSystem) (roots : List String) :
    ∀ acc, (∀ p ∈ roots, fs.Lstat p = some true → fs.EvalSymlinks p ≠ none) →
      (listenRoots fs roots acc).isSome = true := by
  induction roots with
  | nil => intro acc _; rfl
  | cons p roots ih =>
    intro acc h
    have hrest : ∀ q ∈ roots, fs.Lstat q = some true → fs.EvalSymlinks q ≠ none :=
      fun q hq => h q (List.mem_cons_of_mem _ hq)
    have hp := h p (List.mem_cons_self _ _)
    have tail : ∀ (q : String) (a : List String),
        (match fs.Stat q with
          | none => listenRoots fs roots a
          | some isDir =>
            if fs.Watch (if isDir = true then q ++ "/" ++ "..." else q) = true then
              listenRoots fs roots (a ++ [if isDir = true then q ++ "/" ++ "..." else q])
            else listenRoots fs roots a).isSome = true := by
      intro q a
      cases fs.Stat q with
      | none => exact ih a hrest
      | some isDir =>
        cases isDir <;> simp only [Bool.false_eq_true, if_false, if_true] <;> split <;>
          exact ih _ hrest
    unfold listenRoots
    cases hL : fs.Lstat p with
    | none => exact tail p acc
    | some sym =>
      cases sym with
      | false => exact tail p acc
      | true =>
        cases hE : fs.EvalSymlinks p with
        | none => exact absurd hE (hp hL)
        | some q => exact tail q acc

/-- The loop of `Notify` changes the events pending in the channels, not the
channels. -/
theorem Notify_identity {σ ε : Type} (w : Watcher σ ε) (s : σ) :
    (Notify w s).w.events.map Chan.identity = w.events.map Chan.identity := by
  obtain ⟨n, _, hch, _⟩ := notifyLoop_drained w w.events 0 s
  rw [Notify_events, hch]
  have h := congrArg (List.map Chan.identity) (List.take_append_drop n w.events)
  rw [List.map_append] at h
  rw [List.map_append, List.map_map, ← h]
  rfl

/-! ## The claims on reachable states -/

/-- C12: `forceRefresh` is true in the state built by `NewWatcher` and is left
as it is by a `Notify` call that returns an error; a `Notify` call that returns
`nil` makes it false, and no operation (`Listen`, an arriving event, `Notify`,
a round of a dispatcher) sets it back to true.  In every reachable state
`forceRefresh` is true exactly when no `Notify` call has returned `nil` yet. -/
theorem forceRefresh_until_success {σ ε : Type} (s0 : σ) (ops : List (Op σ ε)) (st : Sys σ ε)
    (h : (Sys.init s0).run ops = some st) :
    (NewWatcher σ ε).forceRefresh = true ∧
      (st.w.forceRefresh = true ↔ ∀ r ∈ st.rets, r ≠ .returned none) ∧
      (∀ e, (Notify st.w st.s).ret = .returned (some e) →
        (Notify st.w st.s).w.forceRefresh = st.w.forceRefresh) ∧
      ((Notify st.w st.s).ret = .returned none → (Notify st.w st.s).w.forceRefresh = false) ∧
      (∀ op st1, st.step op = some st1 → st.w.forceRefresh = false →
        st1.w.forceRefresh = false) := by
  have hinv := Sys.run_inv ops _ st (Sys.init_inv s0) h
  refine ⟨rfl, hinv.2.2.1, ?_, ?_, ?_⟩
  · intro e he
    obtain ⟨i, hi⟩ := (Notify_ret_some st.w st.s e).1 he
    exact (Notify_state_failed st.w st.s i e hi).2
  · intro hn
    exact (Notify_state_completed st.w st.s ((Notify_ret_none _ _).1 hn)).2
  · intro op st1 hstep hf
    exact Sys.step_forceRefresh st st1 op hstep hf

/-- C12 at the sample run: a failed cycle, then two cycles that succeed. -/
theorem forceRefresh_until_success_witness :
    ∃ st, (Sys.init 0).run sampleRun = some st ∧
      st.rets = [.returned (some "rebuild failed"), .returned none, .returned none] ∧
      st.w.forceRefresh = false ∧
      (st.w.forceRefresh = true ↔ ∀ r ∈ st.rets, r ≠ .returned none) :=
  ⟨_, rfl, rfl, rfl, (forceRefresh_until_success 0 sampleRun _ rfl).2.1⟩

/-- C15: the collections `events` and `listeners` have the same length in
every reachable state.  `NewWatcher` yields both empty; `Listen`, when it
returns, has appended one empty channel and the given listener, at the same
new last index, the entries before being as they were, and it returns unless a
root is a symbolic link that cannot be resolved, also when roots fail to stat
or to be watched; `Notify` changes neither the listeners nor which channels
there are. -/
theorem events_listeners_aligned {σ ε : Type} (s0 : σ) (ops : List (Op σ ε)) (st : Sys σ ε)
    (h : (Sys.init s0).run ops = some st) :
    st.w.events.length = st.w.listeners.length ∧
      ((NewWatcher σ ε).events = [] ∧ (NewWatcher σ ε).listeners = []) ∧
      (∀ Config fs listener roots,
        (∀ p ∈ roots, fs.Lstat p = some true → fs.EvalSymlinks p ≠ none) →
        ∃ w1 ch, Listen Config fs st.w listener roots = some w1 ∧ ch.pending = [] ∧
          w1.events = st.w.events ++ [ch] ∧ w1.listeners = st.w.listeners ++ [listener] ∧
          w1.events[st.w.listeners.length]? = some ch ∧
          w1.listeners[st.w.listeners.length]? = some listener) ∧
      (∀ s, (Notify st.w s).w.listeners = st.w.listeners ∧
        (Notify st.w s).w.events.map Chan.identity = st.w.events.map Chan.identity) := by
  have hinv := Sys.run_inv ops _ st (Sys.init_inv s0) h
  refine ⟨hinv.1, ⟨rfl, rfl⟩, ?_, fun s => ⟨Notify_listeners st.w s, Notify_identity st.w s⟩⟩
  intro Config fs listener roots hroots
  have hsome := listenRoots_isSome fs roots [] hroots
  cases hw : Listen Config fs st.w listener roots with
  | none =>
    unfold Listen at hw
    split at hw
    · rename_i hnone
      rw [hnone] at hsome
      cases hsome
    · cases hw
  | some w1 =>
    obtain ⟨ch, hp, hev, hls, _, _⟩ := Listen_some Config fs st.w w1 listener roots hw
    refine ⟨w1, ch, rfl, hp, hev, hls, ?_, ?_⟩
    · rw [hev, ← hinv.1]; simp
    · rw [hls]; simp

/-- C15 at the sample run: a further listener is registered at index `2`, with
roots that neither stat nor can be watched. -/
theorem events_listeners_aligned_witness :
    ∃ st, (Sys.init 0).run sampleRun = some st ∧
      st.w.events.length = 2 ∧ st.w.listeners.length = 2 ∧
      ∃ w1 ch, Listen emptyConfig deadFS st.w okListener ["/gone", "/lost"] = some w1 ∧
        ch.pending = [] ∧ w1.events = st.w.events ++ [ch] ∧
        w1.listeners = st.w.listeners ++ [okListener] ∧
        w1.events[st.w.listeners.length]? = some ch ∧
        w1.listeners[st.w.listeners.length]? = some okListener :=
  ⟨_, rfl, rfl, rfl,
    (events_listeners_aligned 0 sampleRun _ rfl).2.2.1 emptyConfig deadFS okListener
      ["/gone", "/lost"] (by decide)⟩

/-- C20: in every state reachable from `NewWatcher`, `lastError` is `-1` or the
index of a registered listener, there is a listener for every channel index,
and so the lookup `w.listeners[i]` of `Notify` is in range: `Notify` does not
panic. -/
theorem lastError_in_range {σ ε : Type} (s0 : σ) (ops : List (Op σ ε)) (st : Sys σ ε)
    (h : (Sys.init s0).run ops = some st) :
    (st.w.lastError = -1 ∨ (0 ≤ st.w.lastError ∧ st.w.lastError < st.w.listeners.length)) ∧
      (∀ i, i < st.w.events.length → ∃ l, st.w.listeners[i]? = some l) ∧
      (∀ s, ∃ r, (Notify st.w s).ret = .returned r) ∧
      ∀ r ∈ st.rets, r ≠ .panicked := by
  have hinv := Sys.run_inv ops _ st (Sys.init_inv s0) h
  refine ⟨hinv.2.1, ?_, ?_, hinv.2.2.2⟩
  · intro i hi
    exact ⟨_, List.getElem?_eq_getElem (by rw [← hinv.1]; exact hi)⟩
  · intro s
    cases hx : (Notify st.w s).ret with
    | returned r => exact ⟨r, rfl⟩
    | panicked => exact absurd hx (Notify_no_panic st.w s (by rw [hinv.1]))

/-- C20 at the state the sample run is in after its first, failed cycle. -/
theorem lastError_in_range_witness :
    ∃ st, (Sys.init 0).run (sampleRun.take 3) = some st ∧ st.w.lastError = 0 ∧
      (st.w.lastError = -1 ∨ (0 ≤ st.w.lastError ∧ st.w.lastError < st.w.listeners.length)) ∧
      ∀ s, ∃ r, (Notify st.w s).ret = .returned r :=
  ⟨_, rfl, rfl, (lastError_in_range 0 (sampleRun.take 3) _ rfl).1,
    (lastError_in_range 0 (sampleRun.take 3) _ rfl).2.2.1⟩

end Revel
